import Mathlib

set_option maxHeartbeats 2000000
set_option maxRecDepth 8000

/- Verification development for the studio-schedule greedy scheduler.
   Shallow embedding of src/room_scheduler.py, src/teacher_scheduler.py,
   src/scheduler.py and the helpers they import from src/data_loader.py.
   Python dictionaries keyed by (id, day_idx, slot_idx) are modelled as
   association lists with first-match lookup (absent key = False, matching
   dict.get(key, False)); in-place updates replace the first matching entry
   and append missing keys at the end, as CPython dicts do. -/

/-- A raw preference / specialization value from the spreadsheet: either an
integer (room ids, expanded time slots, teacher ids) or a string (day names,
unparsed values).  Python equality between an int and a str is False, which
structural equality on this sum type reproduces. -/
inductive PVal where
  | pint : Int → PVal
  | pstr : String → PVal
  deriving DecidableEq, Repr

/-- One preference entry: the dict {"value": ..., "weight": ...} built by
data_loader.load_data. -/
structure Pref where
  value : PVal
  weight : Int
  deriving DecidableEq, Repr

/-- The per-class preference dict class_preferences[class_id]; each field is
`some list` when the corresponding kind key is present. -/
structure ClassPrefs where
  room : Option (List Pref)
  day : Option (List Pref)
  time : Option (List Pref)
  teacher : Option (List Pref)
  deriving DecidableEq, Repr

/-- A class record as produced by data_loader.load_data (classes sheet). -/
structure ClassData where
  class_id : Nat
  class_name : String
  style : String
  level : Int
  age_start : Int
  age_end : Int
  duration : Rat
  duration_slots : Nat
  deriving DecidableEq, Repr

/-- A room record from the room_configurations sheet; component_rooms is []
when the column is NaN (Python None), so the truthiness test
`room["is_combined"] and room["component_rooms"]` becomes
`is_combined ∧ component_rooms ≠ []`. -/
structure Room where
  room_id : Nat
  room_name : String
  is_combined : Bool
  component_rooms : List String
  deriving DecidableEq, Repr

/-- Key of the room availability dictionary: (room_id, day_idx, slot_idx). -/
abbrev RKey := Nat × Nat × Nat

/-- The room_time_slots dictionary: association list, first match wins. -/
abbrev RMatrix := List (RKey × Bool)

/-- dict.get(key, False). -/
def dget : RMatrix → RKey → Bool
  | [], _ => false
  | p :: ps, k => if p.1 = k then p.2 else dget ps k

/-- dict[key] = b : replace the first matching entry in place, else append. -/
def dset : RMatrix → RKey → Bool → RMatrix
  | [], k, b => [(k, b)]
  | p :: ps, k, b => if p.1 = k then (k, b) :: ps else p :: dset ps k b

theorem dget_dset (m : RMatrix) (k : RKey) (b : Bool) (k' : RKey) :
    dget (dset m k b) k' = if k' = k then b else dget m k' := by
  induction m with
  | nil =>
    simp only [dset, dget]
    by_cases h : k' = k
    · simp [h]
    · rw [if_neg h, if_neg (fun hh : k = k' => h hh.symm)]
  | cons p ps ih =>
    simp only [dset]
    by_cases hp : p.1 = k
    · simp only [if_pos hp, dget]
      by_cases h : k' = k
      · simp [h]
      · have hpk : ¬ p.1 = k' := fun hh => h (by rw [← hh, hp])
        simp [h, hpk, if_neg (fun hh : k = k' => h hh.symm)]
    · simp only [if_neg hp, dget, ih]
      by_cases h : p.1 = k'
      · have : ¬ k' = k := fun hh => hp (by rw [h, hh])
        simp [h, this]
      · simp [h]

theorem dget_dset_self (m : RMatrix) (k : RKey) (b : Bool) :
    dget (dset m k b) k = b := by
  rw [dget_dset]; simp

theorem dget_dset_ne (m : RMatrix) (k : RKey) (b : Bool) (k' : RKey) (h : k' ≠ k) :
    dget (dset m k b) k' = dget m k' := by
  rw [dget_dset]; simp [h]

/-- A key whose stored value is true is among the dictionary's keys. -/
theorem mem_keys_of_dget_true {m : RMatrix} {k : RKey} (h : dget m k = true) :
    k ∈ m.map Prod.fst := by
  induction m with
  | nil => simp [dget] at h
  | cons p ps ih =>
    simp only [dget] at h
    by_cases hp : p.1 = k
    · simp [hp.symm]
    · rw [if_neg hp] at h
      simp [ih h]

/-- Setting a value false can never turn a false lookup true. -/
theorem dget_dset_false_of_false {m : RMatrix} {k k' : RKey}
    (h : dget m k' = false) : dget (dset m k false) k' = false := by
  rw [dget_dset]
  by_cases hk : k' = k <;> simp [hk, h]

/- ### Stable insertion sorts.
Python's list.sort is stable; sort(reverse=True) keeps equal elements in
their original relative order.  An element is inserted after every element
it compares less-or-equal to, which reproduces both stabilities. -/

/-- Insert into a descending-sorted list (for sort(reverse=True)). -/
def insertDesc (le : α → α → Bool) (x : α) : List α → List α
  | [] => [x]
  | y :: ys => if le x y then y :: insertDesc le x ys else x :: y :: ys

/-- Python list.sort(reverse=True) on a total order `le`. -/
def sortDescBy (le : α → α → Bool) (l : List α) : List α :=
  l.foldl (fun acc x => insertDesc le x acc) []

/-- Insert into an ascending-sorted list (for plain list.sort). -/
def insertAsc (le : α → α → Bool) (x : α) : List α → List α
  | [] => [x]
  | y :: ys => if le y x then y :: insertAsc le x ys else x :: y :: ys

/-- Python list.sort(key=...) on a total order `le`. -/
def sortAscBy (le : α → α → Bool) (l : List α) : List α :=
  l.foldl (fun acc x => insertAsc le x acc) []

theorem mem_insertDesc (le : α → α → Bool) (x : α) (l : List α) (y : α) :
    y ∈ insertDesc le x l ↔ y = x ∨ y ∈ l := by
  induction l with
  | nil => simp [insertDesc]
  | cons z zs ih =>
    simp only [insertDesc]
    by_cases h : le x z <;> simp [h, ih] <;> tauto

theorem length_insertDesc (le : α → α → Bool) (x : α) (l : List α) :
    (insertDesc le x l).length = l.length + 1 := by
  induction l with
  | nil => simp [insertDesc]
  | cons z zs ih =>
    simp only [insertDesc]
    by_cases h : le x z <;> simp [h, ih]

theorem mem_insertAsc (le : α → α → Bool) (x : α) (l : List α) (y : α) :
    y ∈ insertAsc le x l ↔ y = x ∨ y ∈ l := by
  induction l with
  | nil => simp [insertAsc]
  | cons z zs ih =>
    simp only [insertAsc]
    by_cases h : le z x <;> simp [h, ih] <;> tauto

theorem length_insertAsc (le : α → α → Bool) (x : α) (l : List α) :
    (insertAsc le x l).length = l.length + 1 := by
  induction l with
  | nil => simp [insertAsc]
  | cons z zs ih =>
    simp only [insertAsc]
    by_cases h : le z x <;> simp [h, ih]

theorem mem_sortDescBy (le : α → α → Bool) (l : List α) (y : α) :
    y ∈ sortDescBy le l ↔ y ∈ l := by
  have key : ∀ (l acc : List α), y ∈ l.foldl (fun acc x => insertDesc le x acc) acc ↔
      y ∈ acc ∨ y ∈ l := by
    intro l
    induction l with
    | nil => simp
    | cons z zs ih =>
      intro acc
      simp only [List.foldl_cons, ih, mem_insertDesc, List.mem_cons]
      tauto
  simpa using key l []

theorem length_sortDescBy (le : α → α → Bool) (l : List α) :
    (sortDescBy le l).length = l.length := by
  have key : ∀ (l acc : List α),
      (l.foldl (fun acc x => insertDesc le x acc) acc).length = acc.length + l.length := by
    intro l
    induction l with
    | nil => simp
    | cons z zs ih =>
      intro acc
      simp only [List.foldl_cons, ih, length_insertDesc, List.length_cons]
      omega
  simpa using key l []

theorem mem_sortAscBy (le : α → α → Bool) (l : List α) (y : α) :
    y ∈ sortAscBy le l ↔ y ∈ l := by
  have key : ∀ (l acc : List α), y ∈ l.foldl (fun acc x => insertAsc le x acc) acc ↔
      y ∈ acc ∨ y ∈ l := by
    intro l
    induction l with
    | nil => simp
    | cons z zs ih =>
      intro acc
      simp only [List.foldl_cons, ih, mem_insertAsc, List.mem_cons]
      tauto
  simpa using key l []

theorem length_sortAscBy (le : α → α → Bool) (l : List α) :
    (sortAscBy le l).length = l.length := by
  have key : ∀ (l acc : List α),
      (l.foldl (fun acc x => insertAsc le x acc) acc).length = acc.length + l.length := by
    intro l
    induction l with
    | nil => simp
    | cons z zs ih =>
      intro acc
      simp only [List.foldl_cons, ih, length_insertAsc, List.length_cons]
      omega
  simpa using key l []

/- ### Time helpers from data_loader.py. -/

/-- data_loader.index_to_day: day index to English day name, None out of range. -/
def index_to_day (index : Nat) : Option String :=
  ["Monday", "Tuesday", "Wednesday", "Thursday", "Friday", "Saturday",
   "Sunday"].get? index

/-- Zero-padded two-digit rendering, Python f-string {:02d} on a Nat. -/
def pad2 (n : Nat) : String :=
  if n < 10 then "0" ++ toString n else toString n

/-- data_loader.slot_index_to_time: slot index to "HH:MM". -/
def slot_index_to_time (slot_index : Nat) : String :=
  pad2 (slot_index / 4) ++ ":" ++ pad2 (slot_index % 4 * 15)

/- ### room_scheduler.create_room_availability_matrix -/

/-- Resolution of component-room names to ids inside the first conflict loop
of create_room_availability_matrix: for each name, the first room whose
room_name matches contributes its id (the inner loop breaks on the first
match; a name matching no room contributes nothing). -/
def componentIds (rooms : List Room) (names : List String) : List Nat :=
  names.foldl (fun acc n =>
    match rooms.find? (fun r => r.room_name == n) with
    | some r => acc ++ [r.room_id]
    | none => acc) []

/-- One iteration of the first conflict loop: for a combined room, walk a
snapshot of the current keys and, wherever this combined room is available,
mark the identical slot unavailable for every component room. -/
def processCombined (rooms : List Room) (m : RMatrix) (room : Room) : RMatrix :=
  if room.is_combined = true ∧ room.component_rooms ≠ [] then
    (m.map Prod.fst).foldl (fun m' key =>
      if key.1 = room.room_id ∧ dget m' key = true then
        (componentIds rooms room.component_rooms).foldl
          (fun m'' cid => dset m'' (cid, key.2.1, key.2.2) false) m'
      else m') m
  else m

/-- The combined rooms that list a given (component) room name. -/
def combinedIdsFor (rooms : List Room) (name : String) : List Nat :=
  (rooms.filter (fun r =>
    r.is_combined && !r.component_rooms.isEmpty && r.component_rooms.contains name)).map
    (fun r => r.room_id)

/-- One iteration of the reverse conflict loop: for a non-combined room, walk
a snapshot of the current keys and, wherever this room is available, mark the
slot unavailable for every combined room that contains it. -/
def processReverse (rooms : List Room) (m : RMatrix) (room : Room) : RMatrix :=
  if room.is_combined = true then m
  else
    let combIds := combinedIdsFor rooms room.room_name
    (m.map Prod.fst).foldl (fun m' key =>
      if key.1 = room.room_id ∧ dget m' key = true then
        combIds.foldl (fun m'' cid => dset m'' (cid, key.2.1, key.2.2) false) m'
      else m') m

/-- room_scheduler.create_room_availability_matrix: copy the input
availability, then run the combined-to-component conflict loop followed by
the component-to-combined conflict loop. -/
def create_room_availability_matrix (rooms : List Room) (room_availability : RMatrix) :
    RMatrix :=
  let m := rooms.foldl (processCombined rooms) room_availability
  rooms.foldl (processReverse rooms) m

/- ### room_scheduler.sort_classes_by_difficulty -/

/-- An exact fraction num/den: the difficulty scores mix integers with the
float divisions 50/n and 30/m, modelled as exact rationals kept unreduced
and compared by cross-multiplication (dens are positive in every run that
does not divide by zero, where Python would raise). -/
structure Frac where
  num : Int
  den : Int
  deriving DecidableEq, Repr

/-- Embed an integer score. -/
def fracOfInt (n : Int) : Frac := ⟨n, 1⟩

/-- Exact addition of fractions, no reduction. -/
def fadd (a b : Frac) : Frac := ⟨a.num * b.den + b.num * a.den, a.den * b.den⟩

/-- Exact subtraction of fractions, no reduction. -/
def fsub (a b : Frac) : Frac := ⟨a.num * b.den - b.num * a.den, a.den * b.den⟩

/-- Value order on fractions with positive denominators. -/
def fracLtB (a b : Frac) : Bool := decide (a.num * b.den < b.num * a.den)

/-- Value equality on fractions with positive denominators. -/
def fracEqB (a b : Frac) : Bool := decide (a.num * b.den = b.num * a.den)

/-- The difficulty score of one class. -/
def difficultyScore (cp : Nat → Option ClassPrefs) (cd : ClassData) : Frac :=
  let score := fracOfInt ((cd.duration_slots : Int) * 10)
  match cp cd.class_id with
  | none => score
  | some prefs =>
    let score := match prefs.room with
      | some l => fadd score ⟨50, (l.length : Int)⟩
      | none => fsub score ⟨20, 1⟩
    let score := match prefs.day with
      | some l => fadd score ⟨30, (l.length : Int)⟩
      | none => fsub score ⟨15, 1⟩
    match prefs.time with
    | some l => fadd score ⟨(l.length : Int) * 5, 1⟩
    | none => score

/-- Python tuple order on (score, class_id) pairs. -/
def ratPairLe (a b : Frac × Nat) : Bool :=
  fracLtB a.1 b.1 || (fracEqB a.1 b.1 && decide (a.2 ≤ b.2))

/-- room_scheduler.sort_classes_by_difficulty: score every class, sort the
(score, class_id) pairs descending, then rebuild the class list by taking,
for each pair, the first class with that id. -/
def sort_classes_by_difficulty (classes : List ClassData) (cp : Nat → Option ClassPrefs) :
    List ClassData :=
  let class_scores := classes.map (fun cd => (difficultyScore cp cd, cd.class_id))
  let sorted := sortDescBy ratPairLe class_scores
  sorted.foldl (fun acc p =>
    match classes.find? (fun cd => cd.class_id == p.2) with
    | some cd => acc ++ [cd]
    | none => acc) []

/- ### room_scheduler.find_compatible_slots -/

/-- dict.get(slot_key, False) over every slot of the class: the fits check of
find_compatible_slots. -/
def fits (m : RMatrix) (room_id day_idx start_slot dur : Nat) : Bool :=
  (List.range dur).all (fun offset => dget m (room_id, day_idx, start_slot + offset))

/-- Python `p["value"] == day_name` where day_name is index_to_day(day_idx)
(None when out of range): only a string value can equal a day name. -/
def pvalIsDay (v : PVal) (d : Option String) : Bool :=
  match v, d with
  | PVal.pstr s, some t => s == t
  | _, _ => false

/-- The three expanded preference value lists of find_compatible_slots. -/
def prefLists (cp : Nat → Option ClassPrefs) (class_id : Nat) :
    List PVal × List PVal × List PVal :=
  match cp class_id with
  | none => ([], [], [])
  | some prefs =>
    ((match prefs.room with | some l => l.map (fun p => p.value) | none => []),
     (match prefs.day with | some l => l.map (fun p => p.value) | none => []),
     (match prefs.time with | some l => l.map (fun p => p.value) | none => []))

/-- room_scheduler.find_compatible_slots: all (room_id, day_idx, start_slot)
triples passing the preference filters whose full duration is available. -/
def find_compatible_slots (cd : ClassData) (m : RMatrix) (rooms : List Room)
    (cp : Nat → Option ClassPrefs) : List RKey :=
  let pls := prefLists cp cd.class_id
  let preferred_rooms := pls.1
  let preferred_days := pls.2.1
  let preferred_times := pls.2.2
  rooms.foldl (fun acc room =>
    if preferred_rooms ≠ [] ∧
        ¬ (preferred_rooms.contains (PVal.pint room.room_id) = true) then acc
    else (List.range 7).foldl (fun acc day_idx =>
      if preferred_days ≠ [] ∧
          ¬ (preferred_days.any (fun v => pvalIsDay v (index_to_day day_idx)) = true) then acc
      else (List.range 96).foldl (fun acc (start_slot : Nat) =>
        if preferred_times ≠ [] ∧
            ¬ (preferred_times.contains (PVal.pint (start_slot : Int)) = true) then acc
        else if fits m room.room_id day_idx start_slot cd.duration_slots then
          acc ++ [(room.room_id, day_idx, start_slot)]
        else acc) acc) acc) []

/- ### room_scheduler.score_slot -/

/-- Room-preference component of score_slot: weight × 10 of the first
preference whose value equals the candidate room id. -/
def roomPrefScore : List Pref → Nat → Int
  | [], _ => 0
  | p :: ps, room_id =>
    if p.value = PVal.pint (room_id : Int) then p.weight * 10 else roomPrefScore ps room_id

/-- Day-preference component of score_slot: weight × 8 of the first
preference whose value equals the candidate day name. -/
def dayPrefScore : List Pref → Option String → Int
  | [], _ => 0
  | p :: ps, day_name =>
    if pvalIsDay p.value day_name then p.weight * 8 else dayPrefScore ps day_name

/-- Time-preference component of score_slot: weight × 5 of the first integer
preference value t with t ≤ start_slot < t + duration_slots (the instance
check rejects string values and the loop breaks on the first match). -/
def timePrefScore : List Pref → Nat → Nat → Int
  | [], _, _ => 0
  | p :: ps, start_slot, duration_slots =>
    match p.value with
    | PVal.pint t =>
      if t ≤ (start_slot : Int) ∧ (start_slot : Int) < t + (duration_slots : Int) then
        p.weight * 5
      else timePrefScore ps start_slot duration_slots
    | PVal.pstr _ => timePrefScore ps start_slot duration_slots

/-- A scheduled-class record as built by assign_classes_to_slots (and later
mutated by assign_teachers_to_classes, which fills in teacher_id). -/
structure Scheduled where
  class_id : Nat
  class_name : String
  style : String
  level : Int
  age_start : Int
  age_end : Int
  duration : Rat
  duration_slots : Nat
  room_id : Nat
  day_idx : Nat
  day : Option String
  start_slot : Nat
  start_time : String
  end_slot : Nat
  end_time : String
  teacher_id : Option Nat
  deriving DecidableEq, Repr

/-- Room-balance component of score_slot: room_counts has one key per
distinct room id (initialised to 0), counts already scheduled classes whose
room id is a key, and rewards rooms below the maximal count. -/
def roomBalanceScore (rooms : List Room) (scheduled_classes : List Scheduled)
    (room_id : Nat) : Int :=
  let ids := (rooms.map (fun r => r.room_id)).dedup
  let countFor := fun (r : Nat) => (scheduled_classes.filter (fun c => c.room_id == r)).length
  let current := if room_id ∈ ids then countFor room_id else 0
  let maxCount := (ids.map countFor).foldl Nat.max 0
  if maxCount > 0 then ((maxCount : Int) - (current : Int)) * 3 else 0

/-- Day-balance component of score_slot: day_counts over days 0..6. -/
def dayBalanceScore (scheduled_classes : List Scheduled) (day_idx : Nat) : Int :=
  let countFor := fun (d : Nat) => (scheduled_classes.filter (fun c => c.day_idx == d)).length
  let current := if day_idx < 7 then countFor day_idx else 0
  let maxCount := ((List.range 7).map countFor).foldl Nat.max 0
  if maxCount > 0 then ((maxCount : Int) - (current : Int)) * 2 else 0

/-- Time-continuity component of score_slot: adjacency bonuses against every
already scheduled class in the same room and day. -/
def continuityScore (scheduled_classes : List Scheduled) (cd : ClassData)
    (room_id day_idx start_slot : Nat) : Int :=
  scheduled_classes.foldl (fun score c =>
    if c.room_id = room_id ∧ c.day_idx = day_idx then
      let score := if c.end_slot = start_slot ∧ c.style = cd.style then score + 5 else score
      let score := if c.end_slot = start_slot ∧ c.level + 1 = cd.level then score + 3 else score
      let score := if start_slot + cd.duration_slots = c.start_slot ∧ c.style = cd.style then
          score + 5 else score
      if start_slot + cd.duration_slots = c.start_slot ∧ cd.level + 1 = c.level then
        score + 3 else score
    else score) 0

/-- room_scheduler.score_slot: preference score + room balance + day balance
+ continuity (weights are integers in this embedding). -/
def score_slot (slot : RKey) (cd : ClassData) (cp : Nat → Option ClassPrefs)
    (scheduled_classes : List Scheduled) (rooms : List Room) : Int :=
  let room_id := slot.1
  let day_idx := slot.2.1
  let start_slot := slot.2.2
  let prefScore := match cp cd.class_id with
    | none => 0
    | some prefs =>
      (match prefs.room with | some l => roomPrefScore l room_id | none => 0)
      + (match prefs.day with | some l => dayPrefScore l (index_to_day day_idx) | none => 0)
      + (match prefs.time with
         | some l => timePrefScore l start_slot cd.duration_slots
         | none => 0)
  prefScore + roomBalanceScore rooms scheduled_classes room_id
    + dayBalanceScore scheduled_classes day_idx
    + continuityScore scheduled_classes cd room_id day_idx start_slot

/- ### room_scheduler.assign_classes_to_slots -/

/-- Python tuple order on (score, (room_id, day_idx, start_slot)). -/
def rkLe (a b : RKey) : Bool :=
  decide (a.1 < b.1 ∨ (a.1 = b.1 ∧ (a.2.1 < b.2.1 ∨ (a.2.1 = b.2.1 ∧ a.2.2 ≤ b.2.2))))

/-- Python tuple order on scored slots. -/
def scoredSlotLe (a b : Int × RKey) : Bool :=
  decide (a.1 < b.1) || (decide (a.1 = b.1) && rkLe a.2 b.2)

/-- scored_slots.sort(reverse=True) followed by scored_slots[0]: the selected
(score, slot) pair. -/
def pickBestSlot (scored_slots : List (Int × RKey)) : Int × RKey :=
  (sortDescBy scoredSlotLe scored_slots).headD (0, 0, 0, 0)

/-- The scheduled_class dict literal built by assign_classes_to_slots. -/
def mkScheduled (cd : ClassData) (slot : RKey) : Scheduled :=
  { class_id := cd.class_id
    class_name := cd.class_name
    style := cd.style
    level := cd.level
    age_start := cd.age_start
    age_end := cd.age_end
    duration := cd.duration
    duration_slots := cd.duration_slots
    room_id := slot.1
    day_idx := slot.2.1
    day := index_to_day slot.2.1
    start_slot := slot.2.2
    start_time := slot_index_to_time slot.2.2
    end_slot := slot.2.2 + cd.duration_slots
    end_time := slot_index_to_time (slot.2.2 + cd.duration_slots)
    teacher_id := none }

/-- Lines 386-394 of the placement update: for each component name of a
placed combined room, mark every room with that name unavailable at the
placed (day, slot); the inner room loop has no break, so all matches mark. -/
def markComponentsOf (m : RMatrix) (rooms : List Room) (room : Room)
    (day_idx s : Nat) : RMatrix :=
  room.component_rooms.foldl (fun m component_name =>
    rooms.foldl (fun m r =>
      if r.room_name = component_name then dset m (r.room_id, day_idx, s) false
      else m) m) m

/-- Lines 397-410 of the placement update: mark every combined room one of
whose component names matches a room with the placed room id. -/
def markCombinedOver (m : RMatrix) (rooms : List Room) (room_id day_idx s : Nat) :
    RMatrix :=
  rooms.foldl (fun m r =>
    if r.is_combined = true ∧ r.component_rooms ≠ [] then
      r.component_rooms.foldl (fun m component_name =>
        rooms.foldl (fun m comp_room =>
          if comp_room.room_name = component_name ∧ comp_room.room_id = room_id then
            dset m (r.room_id, day_idx, s) false
          else m) m) m
    else m) m

/-- One offset iteration of the placement update: mark the placed slot
unavailable, then for every room record run the combined-room branch (when
that record is the placed combined room) followed by the component-to-
combined loop, which the source nests inside the room loop. -/
def markOffset (m : RMatrix) (rooms : List Room) (room_id day_idx s : Nat) : RMatrix :=
  let m := dset m (room_id, day_idx, s) false
  rooms.foldl (fun m room =>
    let m := if room.room_id = room_id ∧ room.is_combined = true ∧
        room.component_rooms ≠ [] then
        markComponentsOf m rooms room day_idx s
      else m
    markCombinedOver m rooms room_id day_idx s) m

/-- The availability update after a placement, over every offset of the
class duration. -/
def markClass (m : RMatrix) (rooms : List Room) (room_id day_idx start_slot dur : Nat) :
    RMatrix :=
  (List.range dur).foldl
    (fun m offset => markOffset m rooms room_id day_idx (start_slot + offset)) m

/-- An unscheduled record of phase 1: the class dict copy plus a reason. -/
structure RUnsched where
  data : ClassData
  reason : String
  deriving DecidableEq, Repr

/-- The running state of the placement loop. -/
structure P1State where
  m : RMatrix
  scheduled : List Scheduled
  unscheduled : List RUnsched
  deriving Repr

/-- One iteration of the placement loop of assign_classes_to_slots. -/
def placeClass (rooms : List Room) (cp : Nat → Option ClassPrefs)
    (st : P1State) (cd : ClassData) : P1State :=
  let compatible_slots := find_compatible_slots cd st.m rooms cp
  if compatible_slots = [] then
    { st with
      unscheduled := st.unscheduled ++ [⟨cd, "No compatible room-time slot found"⟩] }
  else
    let scored_slots := compatible_slots.map
      (fun slot => (score_slot slot cd cp st.scheduled rooms, slot))
    let best_slot := (pickBestSlot scored_slots).2
    { m := markClass st.m rooms best_slot.1 best_slot.2.1 best_slot.2.2 cd.duration_slots
      scheduled := st.scheduled ++ [mkScheduled cd best_slot]
      unscheduled := st.unscheduled }

/-- room_scheduler.assign_classes_to_slots (phases 1 and 2): seed the matrix,
order the classes by difficulty, then greedily place each class. -/
def assign_classes_to_slots (classes : List ClassData) (rooms : List Room)
    (room_availability : RMatrix) (cp : Nat → Option ClassPrefs) :
    List Scheduled × List RUnsched :=
  let room_time_slots := create_room_availability_matrix rooms room_availability
  let sorted_classes := sort_classes_by_difficulty classes cp
  let final := sorted_classes.foldl (placeClass rooms cp) ⟨room_time_slots, [], []⟩
  (final.scheduled, final.unscheduled)

/- ### teacher_scheduler.py -/

/-- Key of the teacher availability dictionary: (teacher_id, day_idx,
slot_idx).  Phase 3 never iterates this dictionary's keys, so it is modelled
extensionally as a function (absent = False, matching dict.get). -/
abbrev TAvail := Nat × Nat × Nat → Bool

/-- teacher_avail[(t, d, s)] = False. -/
def tset (ta : TAvail) (k : Nat × Nat × Nat) : TAvail :=
  fun k' => if k' = k then false else ta k'

/-- The per-teacher specialization dict teacher_specializations[teacher_id];
each field is `some values` when the corresponding kind key is present. -/
structure TeacherSpec where
  style : Option (List PVal)
  age_group : Option (List String)
  level : Option (List PVal)
  deriving DecidableEq, Repr

/-- First-match lookup in the teacher_specializations dict (an association
list in key insertion order). -/
def tsLookup : List (Nat × TeacherSpec) → Nat → Option TeacherSpec
  | [], _ => none
  | p :: ps, t => if p.1 = t then some p.2 else tsLookup ps t

/-- Python int(s) on the pieces of an "a-b" age range: try/except int
parsing of the two halves of split("-"). -/
def parseAgeRange (s : String) : Option (Int × Int) :=
  match s.splitOn "-" with
  | [x, y] =>
    match x.toInt?, y.toInt? with
    | some a, some b => some (a, b)
    | _, _ => none
  | _ => none

/-- Age-group component of score_teacher: +5 for the first age_group entry
that parses as "a-b" and contains [age_start, age_end]; entries that fail to
parse fall back to an exact string match against "age_start-age_end". -/
def ageGroupScore : List String → Int → Int → Int
  | [], _, _ => 0
  | g :: gs, age_start, age_end =>
    match parseAgeRange g with
    | some (a, b) =>
      if age_start ≥ a ∧ age_end ≤ b then 5 else ageGroupScore gs age_start age_end
    | none =>
      if g = toString age_start ++ "-" ++ toString age_end then 5
      else ageGroupScore gs age_start age_end

/-- Preferred-teacher component of score_teacher: weight × 10 of the first
(value, weight) pair whose value equals the teacher id. -/
def teacherPrefScore : List (PVal × Int) → Nat → Int
  | [], _ => 0
  | p :: ps, teacher_id =>
    if p.1 = PVal.pint (teacher_id : Int) then p.2 * 10 else teacherPrefScore ps teacher_id

/-- teacher_scheduler.score_teacher: preference + specialization score. -/
def score_teacher (teacher_id : Nat) (c : Scheduled)
    (preferred_teachers : List (PVal × Int))
    (teacher_specializations : List (Nat × TeacherSpec)) : Int :=
  let score := teacherPrefScore preferred_teachers teacher_id
  match tsLookup teacher_specializations teacher_id with
  | none => score
  | some specs =>
    let score := match specs.style with
      | some l => if l.contains (PVal.pstr c.style) then score + 8 else score
      | none => score
    let score := match specs.age_group with
      | some l => score + ageGroupScore l c.age_start c.age_end
      | none => score
    match specs.level with
    | some l => if l.contains (PVal.pstr (toString c.level)) then score + 3 else score
    | none => score

/-- The teacher-availability check of assign_teachers_to_classes: available
for every slot in range(start_slot, end_slot). -/
def teacherFree (ta : TAvail) (teacher_id day_idx start_slot end_slot : Nat) : Bool :=
  (List.range' start_slot (end_slot - start_slot)).all
    (fun s => ta (teacher_id, day_idx, s))

/-- The available_teachers list of assign_teachers_to_classes: walk the keys
of teacher_specializations in order, keep those available for the whole
duration, and pair each with its score. -/
def availableTeachers (teacher_specializations : List (Nat × TeacherSpec)) (ta : TAvail)
    (c : Scheduled) (preferred_teachers : List (PVal × Int)) : List (Int × Nat) :=
  teacher_specializations.foldl (fun acc p =>
    if teacherFree ta p.1 c.day_idx c.start_slot c.end_slot then
      acc ++ [(score_teacher p.1 c preferred_teachers teacher_specializations, p.1)]
    else acc) []

/-- Python tuple order on (score, teacher_id). -/
def scoredTeacherLe (a b : Int × Nat) : Bool :=
  decide (a.1 < b.1 ∨ (a.1 = b.1 ∧ a.2 ≤ b.2))

/-- Chronological sort key (day_idx, start_slot) of assign_teachers_to_classes. -/
def chronoLe (a b : Scheduled) : Bool :=
  decide (a.day_idx < b.day_idx ∨ (a.day_idx = b.day_idx ∧ a.start_slot ≤ b.start_slot))

/-- The preferred_teachers list of assign_teachers_to_classes. -/
def preferredTeachers (cp : Nat → Option ClassPrefs) (class_id : Nat) :
    List (PVal × Int) :=
  match cp class_id with
  | none => []
  | some prefs =>
    match prefs.teacher with
    | some l => l.map (fun p => (p.value, p.weight))
    | none => []

/-- An unassigned record of phase 3: the scheduled-class dict copy plus a
reason. -/
structure TUnsched where
  data : Scheduled
  reason : String
  deriving DecidableEq, Repr

/-- One iteration of the teacher-assignment loop: find the available
teachers for this class; if any, assign the best one and zero its
availability over the class's slots. -/
def assignTeacherStep (cp : Nat → Option ClassPrefs)
    (teacher_specializations : List (Nat × TeacherSpec))
    (st : List Scheduled × TAvail) (c : Scheduled) : List Scheduled × TAvail :=
  let preferred_teachers := preferredTeachers cp c.class_id
  let available_teachers :=
    availableTeachers teacher_specializations st.2 c preferred_teachers
  if available_teachers = [] then (st.1 ++ [c], st.2)
  else
    let best_teacher := ((sortDescBy scoredTeacherLe available_teachers).headD (0, 0)).2
    let ta := (List.range' c.start_slot (c.end_slot - c.start_slot)).foldl
      (fun ta s => tset ta (best_teacher, c.day_idx, s)) st.2
    (st.1 ++ [{ c with teacher_id := some best_teacher }], ta)

/-- teacher_scheduler.assign_teachers_to_classes (phase 3): sort the placed
classes chronologically, assign each a teacher when one is available, then
split off those left without a teacher as unassigned records. -/
def assign_teachers_to_classes (scheduled_classes : List Scheduled)
    (teacher_availability : TAvail) (cp : Nat → Option ClassPrefs)
    (teacher_specializations : List (Nat × TeacherSpec)) :
    List Scheduled × List TUnsched :=
  let sorted_classes := sortAscBy chronoLe scheduled_classes
  let final := sorted_classes.foldl
    (assignTeacherStep cp teacher_specializations) ([], teacher_availability)
  final.1.foldl (fun acc c =>
    if c.teacher_id = none then
      (acc.1, acc.2 ++ [⟨c, "No available teacher found"⟩])
    else (acc.1 ++ [c], acc.2)) ([], [])

/- ### scheduler.py (the scheduling core of schedule_classes) -/

/-- scheduler.calc_scheduling_rate. -/
def calc_scheduling_rate (scheduled : List Scheduled) (all_classes : List ClassData) :
    Rat :=
  if all_classes = [] then 0
  else (scheduled.length : Rat) / (all_classes.length : Rat)

/-- The stats dict of scheduler.schedule_classes. -/
structure Stats where
  total_classes : Nat
  scheduled_classes : Nat
  unscheduled_classes : Nat
  scheduling_rate : Rat
  unscheduled_by_room : Nat
  unscheduled_by_teacher : Nat
  deriving DecidableEq, Repr

/-- The scheduling core of scheduler.schedule_classes: run phases 1-2 and
phase 3 on the loaded data and compute the statistics (file loading, output
rendering and visualization are external collaborators and are not part of
this embedding). -/
def schedule_classes_core (classes : List ClassData) (rooms : List Room)
    (room_availability : RMatrix) (teacher_availability : TAvail)
    (cp : Nat → Option ClassPrefs)
    (teacher_specializations : List (Nat × TeacherSpec)) :
    List Scheduled × List RUnsched × List TUnsched × Stats :=
  let p1 := assign_classes_to_slots classes rooms room_availability cp
  let p3 := assign_teachers_to_classes p1.1 teacher_availability cp
    teacher_specializations
  let all_unscheduled_len := (p1.2.length + p3.2.length)
  (p3.1, p1.2, p3.2,
    { total_classes := classes.length
      scheduled_classes := p3.1.length
      unscheduled_classes := all_unscheduled_len
      scheduling_rate := calc_scheduling_rate p3.1 classes
      unscheduled_by_room := p1.2.length
      unscheduled_by_teacher := p3.2.length })

/- ### Generic fold lemmas -/

theorem foldl_preserve {α β : Type} {P : α → Prop} {f : α → β → α}
    (h : ∀ a x, P a → P (f a x)) :
    ∀ (l : List β) (a : α), P a → P (l.foldl f a) := by
  intro l
  induction l with
  | nil => intro a ha; simpa using ha
  | cons x xs ih =>
    intro a ha
    simpa using ih _ (h a x ha)

theorem foldl_establish {α β : Type} {P : α → Prop} {f : α → β → α} {x : β}
    (hpres : ∀ a y, P a → P (f a y)) (hx : ∀ a, P (f a x)) :
    ∀ (l : List β) (a : α), x ∈ l → P (l.foldl f a) := by
  intro l
  induction l with
  | nil => intro a h; cases h
  | cons y ys ih =>
    intro a h
    rcases List.mem_cons.1 h with h | h
    · subst h
      simpa using foldl_preserve hpres ys _ (hx a)
    · simpa using ih _ h

theorem foldl_mem_cases {α β : Type} {Q : α → Prop} {f : List α → β → List α}
    (hf : ∀ acc x y, y ∈ f acc x → y ∈ acc ∨ Q y) :
    ∀ (l : List β) (acc : List α) (y : α), y ∈ l.foldl f acc → y ∈ acc ∨ Q y := by
  intro l
  induction l with
  | nil => intro acc y h; exact Or.inl h
  | cons x xs ih =>
    intro acc y h
    simp only [List.foldl_cons] at h
    rcases ih _ _ h with h | h
    · exact hf acc x y h
    · exact Or.inr h

/-- The head of a nonempty list is a member. -/
theorem headD_mem {α : Type} {l : List α} (h : l ≠ []) (d : α) : l.headD d ∈ l := by
  cases l with
  | nil => exact absurd rfl h
  | cons x xs => simp [List.headD]

/- ### Descending insertion sort puts a maximum first -/

theorem pairwise_insertDesc {α : Type} {le : α → α → Bool}
    (htot : ∀ a b, le a b = true ∨ le b a = true)
    (htrans : ∀ a b c, le a b = true → le b c = true → le a c = true)
    (x : α) (l : List α) (hl : List.Pairwise (fun a b => le b a = true) l) :
    List.Pairwise (fun a b => le b a = true) (insertDesc le x l) := by
  induction l with
  | nil => simp [insertDesc]
  | cons y ys ih =>
    rcases List.pairwise_cons.1 hl with ⟨hy, hys⟩
    simp only [insertDesc]
    by_cases h : le x y
    · rw [if_pos h]
      refine List.pairwise_cons.2 ⟨?_, ih hys⟩
      intro z hz
      rcases (mem_insertDesc le x ys z).1 hz with hz | hz
      · exact hz ▸ h
      · exact hy z hz
    · rw [if_neg h]
      have hyx : le y x = true := by
        rcases htot x y with h' | h'
        · exact absurd h' h
        · exact h'
      refine List.pairwise_cons.2 ⟨?_, hl⟩
      intro z hz
      rcases List.mem_cons.1 hz with hz | hz
      · exact hz ▸ hyx
      · exact htrans z y x (hy z hz) hyx

theorem pairwise_sortDescBy {α : Type} {le : α → α → Bool}
    (htot : ∀ a b, le a b = true ∨ le b a = true)
    (htrans : ∀ a b c, le a b = true → le b c = true → le a c = true)
    (l : List α) :
    List.Pairwise (fun a b => le b a = true) (sortDescBy le l) := by
  unfold sortDescBy
  refine foldl_preserve (P := fun s => List.Pairwise (fun a b => le b a = true) s)
    ?_ l [] (by simp)
  intro a x ha
  exact pairwise_insertDesc htot htrans x a ha

/-- The first element after sort(reverse=True) is maximal for the order. -/
theorem sortDescBy_headD_max {α : Type} {le : α → α → Bool}
    (htot : ∀ a b, le a b = true ∨ le b a = true)
    (htrans : ∀ a b c, le a b = true → le b c = true → le a c = true)
    (l : List α) (hne : l ≠ []) (d : α) (x : α) (hx : x ∈ l) :
    le x ((sortDescBy le l).headD d) = true := by
  have hsne : sortDescBy le l ≠ [] := by
    intro h
    have := length_sortDescBy le l
    rw [h] at this
    simp at this
    exact hne (List.eq_nil_of_length_eq_zero this.symm)
  obtain ⟨h, t, hht⟩ : ∃ h t, sortDescBy le l = h :: t := by
    cases hs : sortDescBy le l with
    | nil => exact absurd hs hsne
    | cons a b => exact ⟨a, b, rfl⟩
  have hx' : x ∈ sortDescBy le l := (mem_sortDescBy le l x).2 hx
  rw [hht] at hx' ⊢
  simp only [List.headD]
  rcases List.mem_cons.1 hx' with hx' | hx'
  · subst hx'
    rcases htot x x with h' | h' <;> exact h'
  · have hp := pairwise_sortDescBy htot htrans l
    rw [hht] at hp
    exact (List.pairwise_cons.1 hp).1 x hx'

/- ### The total order used on scored slots -/

theorem scoredSlotLe_total (a b : Int × RKey) :
    scoredSlotLe a b = true ∨ scoredSlotLe b a = true := by
  simp only [scoredSlotLe, rkLe, Bool.or_eq_true, Bool.and_eq_true, decide_eq_true_eq]
  omega

theorem scoredSlotLe_trans (a b c : Int × RKey) (h1 : scoredSlotLe a b = true)
    (h2 : scoredSlotLe b c = true) : scoredSlotLe a c = true := by
  simp only [scoredSlotLe, rkLe, Bool.or_eq_true, Bool.and_eq_true, decide_eq_true_eq]
    at h1 h2 ⊢
  omega

/- ### Every enumerated compatible slot fits in the availability matrix -/

theorem fits_of_mem_find_compatible_slots (cd : ClassData) (m : RMatrix)
    (rooms : List Room) (cp : Nat → Option ClassPrefs) (slot : RKey)
    (h : slot ∈ find_compatible_slots cd m rooms cp) :
    fits m slot.1 slot.2.1 slot.2.2 cd.duration_slots = true := by
  unfold find_compatible_slots at h
  have hmain := foldl_mem_cases
    (Q := fun y : RKey => fits m y.1 y.2.1 y.2.2 cd.duration_slots = true)
    ?_ rooms [] slot h
  · rcases hmain with h' | h'
    · cases h'
    · exact h'
  · intro acc room y hy
    split at hy
    · exact Or.inl hy
    · have hday := foldl_mem_cases
        (Q := fun y : RKey => fits m y.1 y.2.1 y.2.2 cd.duration_slots = true)
        ?_ (List.range 7) acc y hy
      · exact hday
      · intro acc2 day_idx y2 hy2
        split at hy2
        · exact Or.inl hy2
        · have hslot := foldl_mem_cases
            (Q := fun y : RKey => fits m y.1 y.2.1 y.2.2 cd.duration_slots = true)
            ?_ (List.range 96) acc2 y2 hy2
          · exact hslot
          · intro acc3 start_slot y3 hy3
            split at hy3
            · exact Or.inl hy3
            · split at hy3
              · rcases List.mem_append.1 hy3 with h3 | h3
                · exact Or.inl h3
                · rcases List.mem_singleton.1 h3 with rfl
                  rename_i hfits
                  exact Or.inr hfits
              · exact Or.inl hy3

/- ### The placement update only writes False -/

theorem dget_markComponentsOf_false {m : RMatrix} {rooms : List Room} {room : Room}
    {d s : Nat} {k : RKey} (h : dget m k = false) :
    dget (markComponentsOf m rooms room d s) k = false := by
  unfold markComponentsOf
  refine foldl_preserve (P := fun a => dget a k = false) ?_ _ _ h
  intro a name ha
  refine foldl_preserve (P := fun a => dget a k = false) ?_ _ _ ha
  intro a2 r ha2
  dsimp only
  split
  · exact dget_dset_false_of_false ha2
  · exact ha2

theorem dget_markCombinedOver_false {m : RMatrix} {rooms : List Room}
    {rid d s : Nat} {k : RKey} (h : dget m k = false) :
    dget (markCombinedOver m rooms rid d s) k = false := by
  unfold markCombinedOver
  refine foldl_preserve (P := fun a => dget a k = false) ?_ _ _ h
  intro a r ha
  dsimp only
  split
  · refine foldl_preserve (P := fun a => dget a k = false) ?_ _ _ ha
    intro a2 name ha2
    refine foldl_preserve (P := fun a => dget a k = false) ?_ _ _ ha2
    intro a3 comp_room ha3
    dsimp only
    split
    · exact dget_dset_false_of_false ha3
    · exact ha3
  · exact ha

theorem dget_markOffset_false {m : RMatrix} {rooms : List Room} {rid d s : Nat}
    {k : RKey} (h : dget m k = false) :
    dget (markOffset m rooms rid d s) k = false := by
  unfold markOffset
  refine foldl_preserve (P := fun a => dget a k = false) ?_ _ _
    (dget_dset_false_of_false h)
  intro a room ha
  dsimp only
  refine dget_markCombinedOver_false ?_
  split
  · exact dget_markComponentsOf_false ha
  · exact ha

theorem dget_markClass_false {m : RMatrix} {rooms : List Room}
    {rid d start dur : Nat} {k : RKey} (h : dget m k = false) :
    dget (markClass m rooms rid d start dur) k = false := by
  unfold markClass
  refine foldl_preserve (P := fun a => dget a k = false) ?_ _ _ h
  intro a offset ha
  exact dget_markOffset_false ha

/- ### The placement update blocks the placed slot and its accordion partners -/

theorem dget_markOffset_self (m : RMatrix) (rooms : List Room) (rid d s : Nat) :
    dget (markOffset m rooms rid d s) (rid, d, s) = false := by
  unfold markOffset
  refine foldl_preserve (P := fun a => dget a (rid, d, s) = false) ?_ _ _
    (dget_dset_self m (rid, d, s) false)
  intro a room ha
  dsimp only
  refine dget_markCombinedOver_false ?_
  split
  · exact dget_markComponentsOf_false ha
  · exact ha

theorem dget_markComponentsOf_hits {m : RMatrix} {rooms : List Room} {room : Room}
    {d s : Nat} (P : Room) (hP : P ∈ rooms) (hname : P.room_name ∈ room.component_rooms) :
    dget (markComponentsOf m rooms room d s) (P.room_id, d, s) = false := by
  unfold markComponentsOf
  refine foldl_establish (P := fun a => dget a (P.room_id, d, s) = false)
    (x := P.room_name) ?_ ?_ _ _ hname
  · intro a name ha
    refine foldl_preserve (P := fun a => dget a (P.room_id, d, s) = false) ?_ _ _ ha
    intro a2 r ha2
    dsimp only
    split
    · exact dget_dset_false_of_false ha2
    · exact ha2
  · intro a
    refine foldl_establish (P := fun a => dget a (P.room_id, d, s) = false)
      (x := P) ?_ ?_ _ _ hP
    · intro a2 r ha2
      dsimp only
      split
      · exact dget_dset_false_of_false ha2
      · exact ha2
    · intro a2
      dsimp only
      rw [if_pos rfl]
      exact dget_dset_self _ _ _

theorem dget_markCombinedOver_hits {m : RMatrix} {rooms : List Room} {rid d s : Nat}
    (C P : Room) (hC : C ∈ rooms) (hcomb : C.is_combined = true)
    (hne : C.component_rooms ≠ []) (hP : P ∈ rooms)
    (hname : P.room_name ∈ C.component_rooms) (hPid : P.room_id = rid) :
    dget (markCombinedOver m rooms rid d s) (C.room_id, d, s) = false := by
  unfold markCombinedOver
  refine foldl_establish (P := fun a => dget a (C.room_id, d, s) = false)
    (x := C) ?_ ?_ _ _ hC
  · intro a r ha
    dsimp only
    split
    · refine foldl_preserve (P := fun a => dget a (C.room_id, d, s) = false) ?_ _ _ ha
      intro a2 name ha2
      refine foldl_preserve (P := fun a => dget a (C.room_id, d, s) = false) ?_ _ _ ha2
      intro a3 comp_room ha3
      dsimp only
      split
      · exact dget_dset_false_of_false ha3
      · exact ha3
    · exact ha
  · intro a
    dsimp only
    rw [if_pos ⟨hcomb, hne⟩]
    refine foldl_establish (P := fun a => dget a (C.room_id, d, s) = false)
      (x := P.room_name) ?_ ?_ _ _ hname
    · intro a2 name ha2
      refine foldl_preserve (P := fun a => dget a (C.room_id, d, s) = false) ?_ _ _ ha2
      intro a3 comp_room ha3
      dsimp only
      split
      · exact dget_dset_false_of_false ha3
      · exact ha3
    · intro a2
      refine foldl_establish (P := fun a => dget a (C.room_id, d, s) = false)
        (x := P) ?_ ?_ _ _ hP
      · intro a3 comp_room ha3
        dsimp only
        split
        · exact dget_dset_false_of_false ha3
        · exact ha3
      · intro a3
        dsimp only
        rw [if_pos ⟨rfl, hPid⟩]
        exact dget_dset_self _ _ _

theorem dget_markOffset_component {m : RMatrix} {rooms : List Room} {rid d s : Nat}
    (C P : Room) (hC : C ∈ rooms) (hcomb : C.is_combined = true)
    (hne : C.component_rooms ≠ []) (hCid : C.room_id = rid)
    (hP : P ∈ rooms) (hname : P.room_name ∈ C.component_rooms) :
    dget (markOffset m rooms rid d s) (P.room_id, d, s) = false := by
  unfold markOffset
  refine foldl_establish (P := fun a => dget a (P.room_id, d, s) = false)
    (x := C) ?_ ?_ _ _ hC
  · intro a room ha
    dsimp only
    refine dget_markCombinedOver_false ?_
    split
    · exact dget_markComponentsOf_false ha
    · exact ha
  · intro a
    dsimp only
    rw [if_pos ⟨hCid, hcomb, hne⟩]
    exact dget_markCombinedOver_false (dget_markComponentsOf_hits P hP hname)

theorem dget_markOffset_combined {m : RMatrix} {rooms : List Room} {rid d s : Nat}
    (C P : Room) (hC : C ∈ rooms) (hcomb : C.is_combined = true)
    (hne : C.component_rooms ≠ []) (hP : P ∈ rooms)
    (hname : P.room_name ∈ C.component_rooms) (hPid : P.room_id = rid) :
    dget (markOffset m rooms rid d s) (C.room_id, d, s) = false := by
  unfold markOffset
  refine foldl_establish (P := fun a => dget a (C.room_id, d, s) = false)
    (x := C) ?_ ?_ _ _ hC
  · intro a room ha
    dsimp only
    refine dget_markCombinedOver_false ?_
    split
    · exact dget_markComponentsOf_false ha
    · exact ha
  · intro a
    exact dget_markCombinedOver_hits C P hC hcomb hne hP hname hPid

theorem dget_markClass_self (m : RMatrix) (rooms : List Room) (rid d start dur : Nat)
    (off : Nat) (hoff : off < dur) :
    dget (markClass m rooms rid d start dur) (rid, d, start + off) = false := by
  unfold markClass
  refine foldl_establish (P := fun a => dget a (rid, d, start + off) = false)
    (x := off) ?_ ?_ _ _ (List.mem_range.2 hoff)
  · intro a o ha
    exact dget_markOffset_false ha
  · intro a
    exact dget_markOffset_self a rooms rid d (start + off)

theorem dget_markClass_component (m : RMatrix) (rooms : List Room)
    (rid d start dur : Nat) (C P : Room) (hC : C ∈ rooms)
    (hcomb : C.is_combined = true) (hne : C.component_rooms ≠ [])
    (hCid : C.room_id = rid) (hP : P ∈ rooms)
    (hname : P.room_name ∈ C.component_rooms) (off : Nat) (hoff : off < dur) :
    dget (markClass m rooms rid d start dur) (P.room_id, d, start + off) = false := by
  unfold markClass
  refine foldl_establish (P := fun a => dget a (P.room_id, d, start + off) = false)
    (x := off) ?_ ?_ _ _ (List.mem_range.2 hoff)
  · intro a o ha
    exact dget_markOffset_false ha
  · intro a
    exact dget_markOffset_component C P hC hcomb hne hCid hP hname

theorem dget_markClass_combined (m : RMatrix) (rooms : List Room)
    (rid d start dur : Nat) (C P : Room) (hC : C ∈ rooms)
    (hcomb : C.is_combined = true) (hne : C.component_rooms ≠ [])
    (hP : P ∈ rooms) (hname : P.room_name ∈ C.component_rooms)
    (hPid : P.room_id = rid) (off : Nat) (hoff : off < dur) :
    dget (markClass m rooms rid d start dur) (C.room_id, d, start + off) = false := by
  unfold markClass
  refine foldl_establish (P := fun a => dget a (C.room_id, d, start + off) = false)
    (x := off) ?_ ?_ _ _ (List.mem_range.2 hoff)
  · intro a o ha
    exact dget_markOffset_false ha
  · intro a
    exact dget_markOffset_combined C P hC hcomb hne hP hname hPid

/- ### Occupancy and the placement-loop invariant -/

/-- A placement occupies (r, d, s) when it is in room r on day d and s lies
in [start_slot, end_slot). -/
def occupies (c : Scheduled) (r d s : Nat) : Prop :=
  c.room_id = r ∧ c.day_idx = d ∧ c.start_slot ≤ s ∧ s < c.end_slot

instance (c : Scheduled) (r d s : Nat) : Decidable (occupies c r d s) := by
  unfold occupies
  infer_instance

/-- An accordion group: a combined room of the configuration together with
one room whose name appears among its component names. -/
def accordionTrio (rooms : List Room) (C P : Room) : Prop :=
  C ∈ rooms ∧ P ∈ rooms ∧ C.is_combined = true ∧ C.component_rooms ≠ [] ∧
    P.room_name ∈ C.component_rooms

/-- Every already placed class has a consistent end_slot, and the matrix is
False on its own slots and on the slots of its accordion partners. -/
def BlockedInv (rooms : List Room) (st : P1State) : Prop :=
  ∀ p ∈ st.scheduled,
    p.end_slot = p.start_slot + p.duration_slots ∧
    (∀ s, p.start_slot ≤ s → s < p.end_slot →
      dget st.m (p.room_id, p.day_idx, s) = false) ∧
    (∀ C P : Room, accordionTrio rooms C P → ∀ s, p.start_slot ≤ s → s < p.end_slot →
      (p.room_id = C.room_id → dget st.m (P.room_id, p.day_idx, s) = false) ∧
      (p.room_id = P.room_id → dget st.m (C.room_id, p.day_idx, s) = false))

/-- No (room, day, slot) triple is occupied by two placements of the list. -/
def NoDouble (S : List Scheduled) : Prop :=
  List.Pairwise (fun p q => ∀ r d s, ¬ (occupies p r d s ∧ occupies q r d s)) S

/-- No two placements of the list occupy a combined room and one of its
component rooms at the same (day, slot). -/
def AccordionOK (rooms : List Room) (S : List Scheduled) : Prop :=
  ∀ C P : Room, accordionTrio rooms C P → C.room_id ≠ P.room_id →
    ∀ p ∈ S, ∀ q ∈ S, ∀ d s,
      ¬ (occupies p C.room_id d s ∧ occupies q P.room_id d s)

/-- The full placement-loop invariant. -/
def P1Inv (rooms : List Room) (st : P1State) : Prop :=
  BlockedInv rooms st ∧ NoDouble st.scheduled ∧ AccordionOK rooms st.scheduled

theorem pickBestSlot_mem (scored : List (Int × RKey)) (hne : scored ≠ []) :
    pickBestSlot scored ∈ scored := by
  unfold pickBestSlot
  have hsne : sortDescBy scoredSlotLe scored ≠ [] := by
    intro h
    have hl := length_sortDescBy scoredSlotLe scored
    rw [h] at hl
    exact hne (List.eq_nil_of_length_eq_zero hl.symm)
  exact (mem_sortDescBy _ _ _).1 (headD_mem hsne _)

theorem pickBestSlot_max (scored : List (Int × RKey)) (x : Int × RKey)
    (hx : x ∈ scored) : scoredSlotLe x (pickBestSlot scored) = true := by
  have hne : scored ≠ [] := by
    intro h
    rw [h] at hx
    cases hx
  exact sortDescBy_headD_max scoredSlotLe_total scoredSlotLe_trans scored hne _ x hx

theorem dget_of_fits {m : RMatrix} {rid d start dur : Nat}
    (h : fits m rid d start dur = true) (off : Nat) (hoff : off < dur) :
    dget m (rid, d, start + off) = true := by
  unfold fits at h
  exact List.all_eq_true.1 h off (List.mem_range.2 hoff)

/-- The invariant survives one placement with an enumerated compatible slot. -/
theorem placed_state_inv (rooms : List Room) (cp : Nat → Option ClassPrefs)
    (st : P1State) (cd : ClassData) (best : RKey) (u : List RUnsched)
    (hmem : best ∈ find_compatible_slots cd st.m rooms cp)
    (h : P1Inv rooms st) :
    P1Inv rooms
      { m := markClass st.m rooms best.1 best.2.1 best.2.2 cd.duration_slots
        scheduled := st.scheduled ++ [mkScheduled cd best]
        unscheduled := u } := by
  obtain ⟨hB, hN, hA⟩ := h
  have hfits := fits_of_mem_find_compatible_slots cd st.m rooms cp best hmem
  have hav : ∀ s, best.2.2 ≤ s → s < best.2.2 + cd.duration_slots →
      dget st.m (best.1, best.2.1, s) = true := by
    intro s h1 h2
    have hh := dget_of_fits hfits (s - best.2.2) (by omega)
    have hs : best.2.2 + (s - best.2.2) = s := by omega
    rw [hs] at hh
    exact hh
  refine ⟨?_, ?_, ?_⟩
  · -- BlockedInv
    intro p hp
    rcases List.mem_append.1 hp with hp | hp
    · obtain ⟨he, hown, hacc⟩ := hB p hp
      refine ⟨he, ?_, ?_⟩
      · intro s h1 h2
        exact dget_markClass_false (hown s h1 h2)
      · intro C P htrio s h1 h2
        obtain ⟨hx, hy⟩ := hacc C P htrio s h1 h2
        exact ⟨fun hh => dget_markClass_false (hx hh),
          fun hh => dget_markClass_false (hy hh)⟩
    · rcases List.mem_singleton.1 hp with rfl
      refine ⟨rfl, ?_, ?_⟩
      · intro s h1 h2
        have h1' : best.2.2 ≤ s := h1
        have h2' : s < best.2.2 + cd.duration_slots := h2
        have hh := dget_markClass_self st.m rooms best.1 best.2.1 best.2.2
          cd.duration_slots (s - best.2.2) (by omega)
        have hs : best.2.2 + (s - best.2.2) = s := by omega
        rw [hs] at hh
        exact hh
      · intro C P htrio s h1 h2
        obtain ⟨hCmem, hPmem, hcomb, hne, hname⟩ := htrio
        have h1' : best.2.2 ≤ s := h1
        have h2' : s < best.2.2 + cd.duration_slots := h2
        have hs : best.2.2 + (s - best.2.2) = s := by omega
        constructor
        · intro hh
          have hCid : C.room_id = best.1 := hh.symm
          have hm := dget_markClass_component st.m rooms best.1 best.2.1 best.2.2
            cd.duration_slots C P hCmem hcomb hne hCid hPmem hname
            (s - best.2.2) (by omega)
          rw [hs] at hm
          exact hm
        · intro hh
          have hPid : P.room_id = best.1 := hh.symm
          have hm := dget_markClass_combined st.m rooms best.1 best.2.1 best.2.2
            cd.duration_slots C P hCmem hcomb hne hPmem hname hPid
            (s - best.2.2) (by omega)
          rw [hs] at hm
          exact hm
  · -- NoDouble
    refine List.pairwise_append.2 ⟨hN, List.pairwise_singleton _ _, ?_⟩
    intro p hp q hq
    rcases List.mem_singleton.1 hq with rfl
    intro r d s hrs
    obtain ⟨⟨f1, f2, f3, f4⟩, ⟨e1, e2, e3, e4⟩⟩ := hrs
    obtain ⟨hep, hown, _⟩ := hB p hp
    have hfalse := hown s f3 f4
    have he1 : best.1 = r := e1
    have he2 : best.2.1 = d := e2
    have htrue := hav s e3 e4
    rw [f1, f2] at hfalse
    rw [he1, he2] at htrue
    rw [htrue] at hfalse
    cases hfalse
  · -- AccordionOK
    intro C P htrio hid p hp q hq d s hrs
    obtain ⟨h1, h2⟩ := hrs
    obtain ⟨hCmem, hPmem, hcomb, hne, hname⟩ := htrio
    rcases List.mem_append.1 hp with hp | hp
    · rcases List.mem_append.1 hq with hq | hq
      · exact hA C P ⟨hCmem, hPmem, hcomb, hne, hname⟩ hid p hp q hq d s ⟨h1, h2⟩
      · rcases List.mem_singleton.1 hq with rfl
        obtain ⟨e1, e2, e3, e4⟩ := h2
        obtain ⟨f1, f2, f3, f4⟩ := h1
        obtain ⟨hep, _, hacc⟩ := hB p hp
        have hfalse := (hacc C P ⟨hCmem, hPmem, hcomb, hne, hname⟩ s f3 f4).1 f1
        have he1 : best.1 = P.room_id := e1
        have he2 : best.2.1 = d := e2
        have htrue := hav s e3 e4
        rw [he1, he2] at htrue
        rw [f2] at hfalse
        rw [htrue] at hfalse
        cases hfalse
    · rcases List.mem_singleton.1 hp with rfl
      rcases List.mem_append.1 hq with hq | hq
      · obtain ⟨e1, e2, e3, e4⟩ := h1
        obtain ⟨f1, f2, f3, f4⟩ := h2
        obtain ⟨heq, _, hacc⟩ := hB q hq
        have hfalse := (hacc C P ⟨hCmem, hPmem, hcomb, hne, hname⟩ s f3 f4).2 f1
        have he1 : best.1 = C.room_id := e1
        have he2 : best.2.1 = d := e2
        have htrue := hav s e3 e4
        rw [he1, he2] at htrue
        rw [f2] at hfalse
        rw [htrue] at hfalse
        cases hfalse
      · rcases List.mem_singleton.1 hq with rfl
        obtain ⟨e1, _, _, _⟩ := h1
        obtain ⟨f1, _, _, _⟩ := h2
        exact hid (by rw [← e1, ← f1])

/-- Each iteration of the placement loop preserves the invariant. -/
theorem placeClass_inv (rooms : List Room) (cp : Nat → Option ClassPrefs)
    (st : P1State) (cd : ClassData) (h : P1Inv rooms st) :
    P1Inv rooms (placeClass rooms cp st cd) := by
  by_cases hc : find_compatible_slots cd st.m rooms cp = []
  · have heq : placeClass rooms cp st cd =
        { st with unscheduled :=
            st.unscheduled ++ [⟨cd, "No compatible room-time slot found"⟩] } := by
      simp [placeClass, hc]
    rw [heq]
    exact ⟨fun p hp => h.1 p hp, h.2.1, h.2.2⟩
  · have hmapne : (find_compatible_slots cd st.m rooms cp).map
        (fun slot => (score_slot slot cd cp st.scheduled rooms, slot)) ≠ [] := by
      simpa using hc
    have hpick := pickBestSlot_mem _ hmapne
    obtain ⟨slot, hslot, hpair⟩ := List.mem_map.1 hpick
    have hmem : (pickBestSlot ((find_compatible_slots cd st.m rooms cp).map
        (fun slot => (score_slot slot cd cp st.scheduled rooms, slot)))).2 ∈
        find_compatible_slots cd st.m rooms cp := by
      rw [← hpair]
      exact hslot
    have heq : placeClass rooms cp st cd =
        { m := markClass st.m rooms
            (pickBestSlot ((find_compatible_slots cd st.m rooms cp).map
              (fun slot => (score_slot slot cd cp st.scheduled rooms, slot)))).2.1
            (pickBestSlot ((find_compatible_slots cd st.m rooms cp).map
              (fun slot => (score_slot slot cd cp st.scheduled rooms, slot)))).2.2.1
            (pickBestSlot ((find_compatible_slots cd st.m rooms cp).map
              (fun slot => (score_slot slot cd cp st.scheduled rooms, slot)))).2.2.2
            cd.duration_slots
          scheduled := st.scheduled ++ [mkScheduled cd
            (pickBestSlot ((find_compatible_slots cd st.m rooms cp).map
              (fun slot => (score_slot slot cd cp st.scheduled rooms, slot)))).2]
          unscheduled := st.unscheduled } := by
      simp [placeClass, hc]
    rw [heq]
    exact placed_state_inv rooms cp st cd _ st.unscheduled hmem h

/-- The invariant holds after the whole placement loop. -/
theorem p1_loop_inv (rooms : List Room) (cp : Nat → Option ClassPrefs)
    (cds : List ClassData) (m0 : RMatrix) :
    P1Inv rooms (cds.foldl (placeClass rooms cp) ⟨m0, [], []⟩) := by
  refine foldl_preserve (P := P1Inv rooms)
    (fun a x ha => placeClass_inv rooms cp a x ha) cds _ ?_
  refine ⟨?_, ?_, ?_⟩
  · intro p hp
    cases hp
  · exact List.Pairwise.nil
  · intro C P htrio hid p hp q hq d s hrs
    cases hp

/-- C3: No room-time double-booking.  Among the placements returned by
assign_classes_to_slots, for every (room_id, day_idx, slot_idx) at most one
placement occupies that triple: the scheduled list is pairwise free of
co-occupied triples. -/
theorem c3_no_room_time_double_booking (classes : List ClassData) (rooms : List Room)
    (room_availability : RMatrix) (cp : Nat → Option ClassPrefs) :
    List.Pairwise (fun p q => ∀ r d s, ¬ (occupies p r d s ∧ occupies q r d s))
      (assign_classes_to_slots classes rooms room_availability cp).1 :=
  (p1_loop_inv rooms cp (sort_classes_by_difficulty classes cp)
    (create_room_availability_matrix rooms room_availability)).2.1

/-- C1 (amended): accordion exclusion between a combined room and each of its
component rooms.  After assign_classes_to_slots, no (day, slot) is occupied
both by a placement in a combined room and by a placement in a room whose
name is among that combined room's components.  (The original claim, over
every pair of rooms of the group, fails: two sibling component rooms can be
occupied simultaneously.) -/
theorem c1_accordion_combined_component_exclusion (classes : List ClassData)
    (rooms : List Room) (room_availability : RMatrix) (cp : Nat → Option ClassPrefs)
    (C P : Room) (hC : C ∈ rooms) (hP : P ∈ rooms) (hcomb : C.is_combined = true)
    (hne : C.component_rooms ≠ []) (hname : P.room_name ∈ C.component_rooms)
    (hid : C.room_id ≠ P.room_id) :
    ∀ p ∈ (assign_classes_to_slots classes rooms room_availability cp).1,
      ∀ q ∈ (assign_classes_to_slots classes rooms room_availability cp).1,
        ∀ d s, ¬ (occupies p C.room_id d s ∧ occupies q P.room_id d s) := by
  have h := (p1_loop_inv rooms cp (sort_classes_by_difficulty classes cp)
    (create_room_availability_matrix rooms room_availability)).2.2
  exact h C P ⟨hC, hP, hcomb, hne, hname⟩ hid

/-- The slot the placement loop selects for a class: the second component of
the first element of the reverse-sorted scored slot list. -/
def chosenSlot (rooms : List Room) (cp : Nat → Option ClassPrefs) (m : RMatrix)
    (sched : List Scheduled) (cd : ClassData) : RKey :=
  (pickBestSlot ((find_compatible_slots cd m rooms cp).map
    (fun slot => (score_slot slot cd cp sched rooms, slot)))).2

/-- The selected pair is the score paired with the selected slot. -/
theorem pickBestSlot_eq_pair (rooms : List Room) (cp : Nat → Option ClassPrefs)
    (m : RMatrix) (sched : List Scheduled) (cd : ClassData)
    (hne : find_compatible_slots cd m rooms cp ≠ []) :
    pickBestSlot ((find_compatible_slots cd m rooms cp).map
      (fun slot => (score_slot slot cd cp sched rooms, slot))) =
    (score_slot (chosenSlot rooms cp m sched cd) cd cp sched rooms,
      chosenSlot rooms cp m sched cd) := by
  have hmapne : (find_compatible_slots cd m rooms cp).map
      (fun slot => (score_slot slot cd cp sched rooms, slot)) ≠ [] := by
    simpa using hne
  obtain ⟨slot, hslot, hpair⟩ := List.mem_map.1 (pickBestSlot_mem _ hmapne)
  unfold chosenSlot
  rw [← hpair]

/-- C4 (amended): slot tie-breaking.  When a class has compatible slots, the
placement loop appends the class at the selected slot; the selected slot is a
compatible slot that maximises the Python pair (score, (room_id, day_idx,
start_slot)) under lexicographic comparison, so whenever several compatible
slots attain the equal maximal score, the selected one is the
lexicographically largest (room_id, day_idx, start_slot) among them, not the
first in enumeration order. -/
theorem c4_tie_break_selects_lex_largest (rooms : List Room)
    (cp : Nat → Option ClassPrefs) (st : P1State) (cd : ClassData)
    (hne : find_compatible_slots cd st.m rooms cp ≠ []) :
    (placeClass rooms cp st cd).scheduled =
      st.scheduled ++ [mkScheduled cd (chosenSlot rooms cp st.m st.scheduled cd)] ∧
    chosenSlot rooms cp st.m st.scheduled cd ∈ find_compatible_slots cd st.m rooms cp ∧
    (∀ slot ∈ find_compatible_slots cd st.m rooms cp,
      scoredSlotLe (score_slot slot cd cp st.scheduled rooms, slot)
        (score_slot (chosenSlot rooms cp st.m st.scheduled cd) cd cp st.scheduled rooms,
          chosenSlot rooms cp st.m st.scheduled cd) = true) ∧
    (∀ slot ∈ find_compatible_slots cd st.m rooms cp,
      score_slot slot cd cp st.scheduled rooms =
        score_slot (chosenSlot rooms cp st.m st.scheduled cd) cd cp st.scheduled rooms →
      rkLe slot (chosenSlot rooms cp st.m st.scheduled cd) = true) := by
  have hpair := pickBestSlot_eq_pair rooms cp st.m st.scheduled cd hne
  have hmax : ∀ slot ∈ find_compatible_slots cd st.m rooms cp,
      scoredSlotLe (score_slot slot cd cp st.scheduled rooms, slot)
        (score_slot (chosenSlot rooms cp st.m st.scheduled cd) cd cp st.scheduled rooms,
          chosenSlot rooms cp st.m st.scheduled cd) = true := by
    intro slot hslot
    have hx : (score_slot slot cd cp st.scheduled rooms, slot) ∈
        (find_compatible_slots cd st.m rooms cp).map
          (fun slot => (score_slot slot cd cp st.scheduled rooms, slot)) :=
      List.mem_map.2 ⟨slot, hslot, rfl⟩
    have := pickBestSlot_max _ _ hx
    rw [hpair] at this
    exact this
  refine ⟨?_, ?_, hmax, ?_⟩
  · simp [placeClass, hne, chosenSlot]
  · have hmapne : (find_compatible_slots cd st.m rooms cp).map
        (fun slot => (score_slot slot cd cp st.scheduled rooms, slot)) ≠ [] := by
      simpa using hne
    obtain ⟨slot, hslot, hp2⟩ := List.mem_map.1 (pickBestSlot_mem _ hmapne)
    have : chosenSlot rooms cp st.m st.scheduled cd = slot := by
      unfold chosenSlot
      rw [← hp2]
    rw [this]
    exact hslot
  · intro slot hslot heq
    have := hmax slot hslot
    simp only [scoredSlotLe, Bool.or_eq_true, Bool.and_eq_true, decide_eq_true_eq] at this
    rcases this with hlt | ⟨_, hrk⟩
    · exfalso
      omega
    · exact hrk

/- ### Phase-3 helper lemmas -/

theorem foldl_preserve_mem {α β : Type} {P : α → Prop} {f : α → β → α} :
    ∀ {l : List β}, (∀ a x, x ∈ l → P a → P (f a x)) →
      ∀ a, P a → P (l.foldl f a) := by
  intro l
  induction l with
  | nil => intro _ a ha; simpa using ha
  | cons x xs ih =>
    intro h a ha
    simp only [List.foldl_cons]
    exact ih (fun a y hy hay => h a y (List.mem_cons_of_mem x hy) hay) _
      (h a x (List.mem_cons_self x xs) ha)

theorem teacherFree_iff (ta : TAvail) (t d a b : Nat) :
    teacherFree ta t d a b = true ↔ ∀ s, a ≤ s → s < b → ta (t, d, s) = true := by
  unfold teacherFree
  rw [List.all_eq_true]
  constructor
  · intro h s h1 h2
    exact h s (by rw [List.mem_range'_1]; omega)
  · intro h s hs
    rw [List.mem_range'_1] at hs
    exact h s hs.1 (by omega)

theorem tset_false_of_false {ta : TAvail} {k k' : Nat × Nat × Nat}
    (h : ta k' = false) : tset ta k k' = false := by
  unfold tset
  split
  · rfl
  · exact h

/-- Zeroing a teacher's slots never resurrects availability. -/
theorem tfold_false_of_false {ta : TAvail} {t0 d0 a b : Nat} {k : Nat × Nat × Nat}
    (h : ta k = false) :
    ((List.range' a (b - a)).foldl (fun ta s => tset ta (t0, d0, s)) ta) k = false := by
  refine foldl_preserve (P := fun A : TAvail => A k = false) ?_ _ _ h
  intro A s hA
  exact tset_false_of_false hA

/-- Zeroing a teacher's slots makes every slot of the range unavailable. -/
theorem tfold_hits {ta : TAvail} {t0 d0 a b : Nat} {s : Nat}
    (h1 : a ≤ s) (h2 : s < b) :
    ((List.range' a (b - a)).foldl (fun ta s => tset ta (t0, d0, s)) ta)
      (t0, d0, s) = false := by
  refine foldl_establish (P := fun A : TAvail => A (t0, d0, s) = false)
    (x := s) ?_ ?_ _ _ (by rw [List.mem_range'_1]; omega)
  · intro A y hA
    exact tset_false_of_false hA
  · intro A
    unfold tset
    simp

/-- The teachers of the available_teachers list are exactly the keys of
teacher_specializations whose availability covers the whole class. -/
theorem availableTeachers_map_snd (ts : List (Nat × TeacherSpec)) (ta : TAvail)
    (c : Scheduled) (pt : List (PVal × Int)) :
    (availableTeachers ts ta c pt).map Prod.snd =
      (ts.filter (fun p => teacherFree ta p.1 c.day_idx c.start_slot c.end_slot)).map
        Prod.fst := by
  unfold availableTeachers
  suffices h : ∀ (l : List (Nat × TeacherSpec)) (acc : List (Int × Nat)),
      (l.foldl (fun acc p => if teacherFree ta p.1 c.day_idx c.start_slot c.end_slot
          then acc ++ [(score_teacher p.1 c pt ts, p.1)] else acc) acc).map Prod.snd =
        acc.map Prod.snd ++
        (l.filter (fun p =>
          teacherFree ta p.1 c.day_idx c.start_slot c.end_slot)).map Prod.fst by
    simpa using h ts []
  intro l
  induction l with
  | nil => simp
  | cons p ps ih =>
    intro acc
    simp only [List.foldl_cons, List.filter_cons]
    by_cases hf : teacherFree ta p.1 c.day_idx c.start_slot c.end_slot = true
    · rw [if_pos hf, ih, hf]
      simp
    · rw [if_neg hf]
      rw [ih]
      have : teacherFree ta p.1 c.day_idx c.start_slot c.end_slot = false :=
        Bool.eq_false_iff.2 hf
      rw [this]
      simp

/-- C5 (amended): candidate teachers.  For every processed placement, the
teachers considered for scoring and assignment are exactly the teachers that
appear as keys of teacher_specializations AND whose availability covers every
slot of [start_slot, end_slot); a teacher with full availability but no
specialization record is never considered. -/
theorem c5_candidate_teacher_set (ts : List (Nat × TeacherSpec)) (ta : TAvail)
    (c : Scheduled) (pt : List (PVal × Int)) (t : Nat) :
    t ∈ (availableTeachers ts ta c pt).map Prod.snd ↔
      t ∈ ts.map Prod.fst ∧
        ∀ s, c.start_slot ≤ s → s < c.end_slot → ta (t, c.day_idx, s) = true := by
  rw [availableTeachers_map_snd]
  constructor
  · intro h
    obtain ⟨p, hp, rfl⟩ := List.mem_map.1 h
    obtain ⟨hmem, hfree⟩ := List.mem_filter.1 hp
    exact ⟨List.mem_map.2 ⟨p, hmem, rfl⟩, (teacherFree_iff ta p.1 _ _ _).1 hfree⟩
  · intro ⟨hmem, hfree⟩
    obtain ⟨p, hp, rfl⟩ := List.mem_map.1 hmem
    refine List.mem_map.2 ⟨p, List.mem_filter.2 ⟨hp, ?_⟩, rfl⟩
    exact (teacherFree_iff ta p.1 _ _ _).2 hfree

/- ### Teacher occupancy and the phase-3 invariant -/

/-- A class occupies teacher t at (d, s) when it is assigned t on day d and
s lies in [start_slot, end_slot). -/
def tOccupies (c : Scheduled) (t d s : Nat) : Prop :=
  c.teacher_id = some t ∧ c.day_idx = d ∧ c.start_slot ≤ s ∧ s < c.end_slot

instance (c : Scheduled) (t d s : Nat) : Decidable (tOccupies c t d s) := by
  unfold tOccupies
  infer_instance

/-- Invariant of the teacher-assignment loop: every slot occupied by an
already processed class is zeroed in the running availability, and no two
processed classes occupy the same teacher slot. -/
def P2Inv (st : List Scheduled × TAvail) : Prop :=
  (∀ c ∈ st.1, ∀ t d s, tOccupies c t d s → st.2 (t, d, s) = false) ∧
  List.Pairwise (fun c c' => ∀ t d s, ¬ (tOccupies c t d s ∧ tOccupies c' t d s)) st.1

theorem assignTeacherStep_inv (cp : Nat → Option ClassPrefs)
    (ts : List (Nat × TeacherSpec)) (st : List Scheduled × TAvail) (c : Scheduled)
    (hc : c.teacher_id = none) (h : P2Inv st) :
    P2Inv (assignTeacherStep cp ts st c) := by
  obtain ⟨h1, h2⟩ := h
  by_cases hav : availableTeachers ts st.2 c (preferredTeachers cp c.class_id) = []
  · have heq : assignTeacherStep cp ts st c = (st.1 ++ [c], st.2) := by
      simp [assignTeacherStep, hav]
    rw [heq]
    constructor
    · intro c' hc' t d s ho
      rcases List.mem_append.1 hc' with hc' | hc'
      · exact h1 c' hc' t d s ho
      · rcases List.mem_singleton.1 hc' with rfl
        obtain ⟨ho1, _, _, _⟩ := ho
        rw [hc] at ho1
        cases ho1
    · refine List.pairwise_append.2 ⟨h2, List.pairwise_singleton _ _, ?_⟩
      intro a ha b hb t d s hab
      rcases List.mem_singleton.1 hb with rfl
      obtain ⟨_, hob⟩ := hab
      obtain ⟨ho1, _, _, _⟩ := hob
      rw [hc] at ho1
      cases ho1
  · have hne : sortDescBy scoredTeacherLe
        (availableTeachers ts st.2 c (preferredTeachers cp c.class_id)) ≠ [] := by
      intro hh
      have hl := length_sortDescBy scoredTeacherLe
        (availableTeachers ts st.2 c (preferredTeachers cp c.class_id))
      rw [hh] at hl
      exact hav (List.eq_nil_of_length_eq_zero hl.symm)
    have hheadmem := (mem_sortDescBy scoredTeacherLe _ _).1 (headD_mem hne ((0 : Int), 0))
    have hbestmem : ((sortDescBy scoredTeacherLe
        (availableTeachers ts st.2 c (preferredTeachers cp c.class_id))).headD
          ((0 : Int), 0)).2 ∈
        (availableTeachers ts st.2 c (preferredTeachers cp c.class_id)).map
          Prod.snd :=
      List.mem_map.2 ⟨_, hheadmem, rfl⟩
    rw [availableTeachers_map_snd] at hbestmem
    obtain ⟨p, hp, hpb⟩ := List.mem_map.1 hbestmem
    obtain ⟨hpmem, hpfree⟩ := List.mem_filter.1 hp
    have hfree := (teacherFree_iff st.2 p.1 c.day_idx c.start_slot c.end_slot).1 hpfree
    rw [hpb] at hfree
    have heq : assignTeacherStep cp ts st c =
        (st.1 ++ [{ c with teacher_id := some (((sortDescBy scoredTeacherLe
            (availableTeachers ts st.2 c (preferredTeachers cp c.class_id))).headD
              ((0 : Int), 0)).2) }],
          (List.range' c.start_slot (c.end_slot - c.start_slot)).foldl
            (fun ta s => tset ta ((((sortDescBy scoredTeacherLe
              (availableTeachers ts st.2 c (preferredTeachers cp c.class_id))).headD
                ((0 : Int), 0)).2), c.day_idx, s)) st.2) := by
      simp [assignTeacherStep, hav]
    rw [heq]
    constructor
    · intro c' hc' t d s ho
      rcases List.mem_append.1 hc' with hc' | hc'
      · exact tfold_false_of_false (h1 c' hc' t d s ho)
      · rcases List.mem_singleton.1 hc' with rfl
        obtain ⟨ho1, ho2, ho3, ho4⟩ := ho
        have ht : (((sortDescBy scoredTeacherLe
            (availableTeachers ts st.2 c (preferredTeachers cp c.class_id))).headD
              ((0 : Int), 0)).2) = t := by
          simpa using ho1
        have hd : c.day_idx = d := ho2
        rw [← ht, ← hd]
        exact tfold_hits ho3 ho4
    · refine List.pairwise_append.2 ⟨h2, List.pairwise_singleton _ _, ?_⟩
      intro a ha b hb t d s hab
      rcases List.mem_singleton.1 hb with rfl
      obtain ⟨hoa, hob⟩ := hab
      obtain ⟨ho1, ho2, ho3, ho4⟩ := hob
      have ht : (((sortDescBy scoredTeacherLe
          (availableTeachers ts st.2 c (preferredTeachers cp c.class_id))).headD
            ((0 : Int), 0)).2) = t := by
        simpa using ho1
      have htrue := hfree s ho3 ho4
      rw [ht] at htrue
      have hfalse := h1 a ha t d s hoa
      rw [← ho2] at hfalse
      rw [htrue] at hfalse
      cases hfalse

/-- Closed form of the final partition loop of assign_teachers_to_classes. -/
theorem partition_fold_eq (l : List Scheduled) :
    ∀ acc : List Scheduled × List TUnsched,
      l.foldl (fun acc c =>
        if c.teacher_id = none then
          (acc.1, acc.2 ++ [⟨c, "No available teacher found"⟩])
        else (acc.1 ++ [c], acc.2)) acc =
      (acc.1 ++ l.filter (fun c => !(c.teacher_id == none)),
        acc.2 ++ (l.filter (fun c => c.teacher_id == none)).map
          (fun c => ⟨c, "No available teacher found"⟩)) := by
  induction l with
  | nil => intro acc; simp
  | cons c cs ih =>
    intro acc
    simp only [List.foldl_cons, List.filter_cons]
    by_cases hc : c.teacher_id = none
    · rw [if_pos hc, ih]
      simp [hc]
    · rw [if_neg hc, ih]
      simp [hc]

/-- C7: teacher single-booking.  When phase 3 receives placements with no
teacher assigned yet (as phase 1 produces them), no two classes it returns as
assigned occupy the same (teacher_id, day_idx, slot_idx): each assignment
zeroes the chosen teacher's slots before the next class is processed. -/
theorem c7_teacher_single_booking (scheduled : List Scheduled) (ta : TAvail)
    (cp : Nat → Option ClassPrefs) (ts : List (Nat × TeacherSpec))
    (h0 : ∀ c ∈ scheduled, c.teacher_id = none) :
    List.Pairwise (fun c c' => ∀ t d s, ¬ (tOccupies c t d s ∧ tOccupies c' t d s))
      (assign_teachers_to_classes scheduled ta cp ts).1 := by
  have hsorted : ∀ c ∈ sortAscBy chronoLe scheduled, c.teacher_id = none :=
    fun c hcm => h0 c ((mem_sortAscBy chronoLe scheduled c).1 hcm)
  have hinv : P2Inv ((sortAscBy chronoLe scheduled).foldl
      (assignTeacherStep cp ts) ([], ta)) := by
    refine foldl_preserve_mem
      (fun a x hx ha => assignTeacherStep_inv cp ts a x (hsorted x hx) ha) ([], ta)
      ⟨?_, List.Pairwise.nil⟩
    intro c hc
    cases hc
  have hshape : (assign_teachers_to_classes scheduled ta cp ts).1 =
      ((sortAscBy chronoLe scheduled).foldl (assignTeacherStep cp ts)
        ([], ta)).1.filter (fun c => !(c.teacher_id == none)) := by
    unfold assign_teachers_to_classes
    rw [partition_fold_eq]
    simp
  rw [hshape]
  exact List.Pairwise.sublist (List.filter_sublist _) hinv.2

/-- Either branch of one teacher-assignment iteration appends exactly the
processed class, with at most the teacher_id field updated. -/
theorem assignTeacherStep_shape (cp : Nat → Option ClassPrefs)
    (ts : List (Nat × TeacherSpec)) (a : List Scheduled × TAvail) (x : Scheduled) :
    (assignTeacherStep cp ts a x).1 = a.1 ++ [x] ∨
    ∃ b : Nat, (assignTeacherStep cp ts a x).1 =
      a.1 ++ [{ x with teacher_id := some b }] := by
  by_cases hav : availableTeachers ts a.2 x (preferredTeachers cp x.class_id) = []
  · left
    simp [assignTeacherStep, hav]
  · right
    refine ⟨((sortDescBy scoredTeacherLe
      (availableTeachers ts a.2 x (preferredTeachers cp x.class_id))).headD
        ((0 : Int), 0)).2, ?_⟩
    simp [assignTeacherStep, hav]

/-- C10: phase 3 frames the placements.  Every class returned (assigned or
unassigned) is one of the input placements with only the teacher_id field
changed; unassigned copies additionally carry the reason string. -/
theorem c10_phase3_frames_placements (scheduled : List Scheduled) (ta : TAvail)
    (cp : Nat → Option ClassPrefs) (ts : List (Nat × TeacherSpec)) :
    (∀ c ∈ (assign_teachers_to_classes scheduled ta cp ts).1,
      ∃ c₀ ∈ scheduled, c = { c₀ with teacher_id := c.teacher_id }) ∧
    (∀ u ∈ (assign_teachers_to_classes scheduled ta cp ts).2,
      ∃ c₀ ∈ scheduled, u.data = { c₀ with teacher_id := u.data.teacher_id } ∧
        u.reason = "No available teacher found") := by
  have hsorted : ∀ c ∈ sortAscBy chronoLe scheduled, c ∈ scheduled :=
    fun c hcm => (mem_sortAscBy chronoLe scheduled c).1 hcm
  have hinv : ∀ c ∈ ((sortAscBy chronoLe scheduled).foldl
      (assignTeacherStep cp ts) ([], ta)).1,
      ∃ c₀ ∈ scheduled, c = { c₀ with teacher_id := c.teacher_id } := by
    refine foldl_preserve_mem (P := fun st : List Scheduled × TAvail =>
      ∀ c ∈ st.1, ∃ c₀ ∈ scheduled, c = { c₀ with teacher_id := c.teacher_id })
      ?_ ([], ta) ?_
    · intro a x hx ha
      rcases assignTeacherStep_shape cp ts a x with hsh | ⟨b, hsh⟩
      · rw [hsh]
        intro c hcm
        rcases List.mem_append.1 hcm with hcm | hcm
        · exact ha c hcm
        · have hcx := List.mem_singleton.1 hcm
          subst hcx
          exact ⟨c, hsorted c hx, rfl⟩
      · rw [hsh]
        intro c hcm
        rcases List.mem_append.1 hcm with hcm | hcm
        · exact ha c hcm
        · have hcx := List.mem_singleton.1 hcm
          subst hcx
          exact ⟨x, hsorted x hx, rfl⟩
    · intro c hc
      cases hc
  constructor
  · intro c hcm
    have hshape : (assign_teachers_to_classes scheduled ta cp ts).1 =
        ((sortAscBy chronoLe scheduled).foldl (assignTeacherStep cp ts)
          ([], ta)).1.filter (fun c => !(c.teacher_id == none)) := by
      unfold assign_teachers_to_classes
      rw [partition_fold_eq]
      simp
    rw [hshape] at hcm
    exact hinv c (List.mem_filter.1 hcm).1
  · intro u hum
    have hshape : (assign_teachers_to_classes scheduled ta cp ts).2 =
        (((sortAscBy chronoLe scheduled).foldl (assignTeacherStep cp ts)
          ([], ta)).1.filter (fun c => c.teacher_id == none)).map
            (fun c => ⟨c, "No available teacher found"⟩) := by
      unfold assign_teachers_to_classes
      rw [partition_fold_eq]
      simp
    rw [hshape] at hum
    obtain ⟨c, hcf, rfl⟩ := List.mem_map.1 hum
    obtain ⟨c₀, hc₀, hcEq⟩ := hinv c (List.mem_filter.1 hcf).1
    exact ⟨c₀, hc₀, hcEq, rfl⟩

/-- The placement loop either leaves the unscheduled list unchanged or
appends one record with the phase-1 reason string. -/
theorem placeClass_unscheduled_shape (rooms : List Room) (cp : Nat → Option ClassPrefs)
    (st : P1State) (cd : ClassData) :
    (placeClass rooms cp st cd).unscheduled = st.unscheduled ∨
    (placeClass rooms cp st cd).unscheduled =
      st.unscheduled ++ [⟨cd, "No compatible room-time slot found"⟩] := by
  by_cases hc : find_compatible_slots cd st.m rooms cp = []
  · right
    simp [placeClass, hc]
  · left
    simp [placeClass, hc]

/-- C8 (amended): unscheduled reason strings.  Every phase-1 unscheduled
record carries exactly the string "No compatible room-time slot found" and
every phase-3 unassigned record exactly "No available teacher found" (the
spec's strings "no compatible room-time slot" and "no available teacher"
do not occur). -/
theorem c8_unscheduled_reason_strings (classes : List ClassData) (rooms : List Room)
    (room_availability : RMatrix) (cp : Nat → Option ClassPrefs)
    (scheduled : List Scheduled) (ta : TAvail) (cp2 : Nat → Option ClassPrefs)
    (ts : List (Nat × TeacherSpec)) :
    (∀ u ∈ (assign_classes_to_slots classes rooms room_availability cp).2,
      u.reason = "No compatible room-time slot found") ∧
    (∀ u ∈ (assign_teachers_to_classes scheduled ta cp2 ts).2,
      u.reason = "No available teacher found") := by
  constructor
  · have hinv : ∀ u ∈ ((sort_classes_by_difficulty classes cp).foldl
        (placeClass rooms cp)
        ⟨create_room_availability_matrix rooms room_availability, [], []⟩).unscheduled,
        u.reason = "No compatible room-time slot found" := by
      refine foldl_preserve (P := fun st : P1State =>
        ∀ u ∈ st.unscheduled, u.reason = "No compatible room-time slot found")
        ?_ (sort_classes_by_difficulty classes cp)
        ⟨create_room_availability_matrix rooms room_availability, [], []⟩ ?_
      · intro a cd ha
        rcases placeClass_unscheduled_shape rooms cp a cd with hsh | hsh
        · rw [hsh]
          exact ha
        · rw [hsh]
          intro u hu
          rcases List.mem_append.1 hu with hu | hu
          · exact ha u hu
          · rcases List.mem_singleton.1 hu with rfl
            rfl
      · intro u hu
        cases hu
    exact hinv
  · intro u hum
    have hshape : (assign_teachers_to_classes scheduled ta cp2 ts).2 =
        (((sortAscBy chronoLe scheduled).foldl (assignTeacherStep cp2 ts)
          ([], ta)).1.filter (fun c => c.teacher_id == none)).map
            (fun c => ⟨c, "No available teacher found"⟩) := by
      unfold assign_teachers_to_classes
      rw [partition_fold_eq]
      simp
    rw [hshape] at hum
    obtain ⟨c, _, rfl⟩ := List.mem_map.1 hum
    rfl

/- ### Counting lemmas for the statistics -/

/-- Each placement-loop iteration grows scheduled + unscheduled by one. -/
theorem placeClass_counts_step (rooms : List Room) (cp : Nat → Option ClassPrefs)
    (st : P1State) (cd : ClassData) :
    (placeClass rooms cp st cd).scheduled.length +
      (placeClass rooms cp st cd).unscheduled.length =
    st.scheduled.length + st.unscheduled.length + 1 := by
  by_cases hc : find_compatible_slots cd st.m rooms cp = []
  · simp only [placeClass, hc]
    simp
    omega
  · simp only [placeClass, hc]
    simp
    omega

theorem p1_counts (rooms : List Room) (cp : Nat → Option ClassPrefs)
    (cds : List ClassData) : ∀ st : P1State,
    (cds.foldl (placeClass rooms cp) st).scheduled.length +
      (cds.foldl (placeClass rooms cp) st).unscheduled.length =
    st.scheduled.length + st.unscheduled.length + cds.length := by
  induction cds with
  | nil => intro st; simp
  | cons cd cds ih =>
    intro st
    simp only [List.foldl_cons, List.length_cons]
    rw [ih]
    have := placeClass_counts_step rooms cp st cd
    omega

theorem find_isSome_of_exists : ∀ (classes : List ClassData) (cid : Nat),
    (∃ cd ∈ classes, cd.class_id = cid) →
    (classes.find? (fun cd => cd.class_id == cid)).isSome := by
  intro classes
  induction classes with
  | nil =>
    intro cid h
    rcases h with ⟨cd, hcd, _⟩
    cases hcd
  | cons x xs ih =>
    intro cid h
    by_cases hpx : (x.class_id == cid) = true
    · rw [List.find?_cons_of_pos (p := fun cd : ClassData => cd.class_id == cid) xs hpx]
      rfl
    · rw [List.find?_cons_of_neg (p := fun cd : ClassData => cd.class_id == cid) xs hpx]
      rcases h with ⟨cd, hcd, hid⟩
      rcases List.mem_cons.1 hcd with rfl | hcd'
      · exfalso
        exact hpx (by simp [hid])
      · exact ih cid ⟨cd, hcd', hid⟩

/-- The rebuild loop of sort_classes_by_difficulty appends one class per
score pair whenever every pair's id comes from the class list. -/
theorem rebuild_length (classes : List ClassData) :
    ∀ (l : List (Frac × Nat)) (acc : List ClassData),
      (∀ p ∈ l, ∃ cd ∈ classes, cd.class_id = p.2) →
      (l.foldl (fun acc p =>
        match classes.find? (fun cd => cd.class_id == p.2) with
        | some cd => acc ++ [cd]
        | none => acc) acc).length = acc.length + l.length := by
  intro l
  induction l with
  | nil =>
    intro acc _
    simp
  | cons p ps ih =>
    intro acc h
    simp only [List.foldl_cons, List.length_cons]
    have hsome := find_isSome_of_exists classes p.2 (h p (List.mem_cons_self p ps))
    cases hfind : classes.find? (fun cd => cd.class_id == p.2) with
    | none =>
      rw [hfind] at hsome
      exact absurd hsome (by simp)
    | some cd =>
      simp only [hfind]
      have hstep := ih (acc ++ [cd]) (fun q hq => h q (List.mem_cons_of_mem p hq))
      simp only [List.length_append, List.length_singleton] at hstep
      rw [hstep]
      omega

theorem sort_classes_by_difficulty_length (classes : List ClassData)
    (cp : Nat → Option ClassPrefs) :
    (sort_classes_by_difficulty classes cp).length = classes.length := by
  unfold sort_classes_by_difficulty
  have hmem : ∀ p ∈ sortDescBy ratPairLe
      (classes.map (fun cd => (difficultyScore cp cd, cd.class_id))),
      ∃ cd ∈ classes, cd.class_id = p.2 := by
    intro p hp
    have hmap := (mem_sortDescBy _ _ _).1 hp
    obtain ⟨cd, hcd, hfp⟩ := List.mem_map.1 hmap
    refine ⟨cd, hcd, ?_⟩
    rw [← hfp]
  rw [rebuild_length classes _ [] hmem]
  rw [length_sortDescBy]
  simp

/-- Phase 1 partitions the classes: scheduled plus unscheduled-by-room
counts add up to the number of input classes. -/
theorem assign_classes_partition_length (classes : List ClassData)
    (rooms : List Room) (room_availability : RMatrix)
    (cp : Nat → Option ClassPrefs) :
    (assign_classes_to_slots classes rooms room_availability cp).1.length +
      (assign_classes_to_slots classes rooms room_availability cp).2.length =
      classes.length := by
  have h := p1_counts rooms cp (sort_classes_by_difficulty classes cp)
    ⟨create_room_availability_matrix rooms room_availability, [], []⟩
  rw [sort_classes_by_difficulty_length] at h
  simpa using h

theorem assignTeacherStep_count (cp : Nat → Option ClassPrefs)
    (ts : List (Nat × TeacherSpec)) (a : List Scheduled × TAvail) (x : Scheduled) :
    (assignTeacherStep cp ts a x).1.length = a.1.length + 1 := by
  rcases assignTeacherStep_shape cp ts a x with hsh | ⟨b, hsh⟩
  · rw [hsh]
    simp
  · rw [hsh]
    simp

theorem p2_counts (cp : Nat → Option ClassPrefs) (ts : List (Nat × TeacherSpec))
    (l : List Scheduled) : ∀ st : List Scheduled × TAvail,
    (l.foldl (assignTeacherStep cp ts) st).1.length = st.1.length + l.length := by
  induction l with
  | nil => intro st; simp
  | cons c cs ih =>
    intro st
    simp only [List.foldl_cons, List.length_cons]
    rw [ih]
    rw [assignTeacherStep_count]
    omega

theorem filter_length_split (l : List Scheduled) :
    (l.filter (fun c => !(c.teacher_id == none))).length +
      (l.filter (fun c => c.teacher_id == none)).length = l.length := by
  induction l with
  | nil => simp
  | cons c cs ih =>
    simp only [List.filter_cons]
    by_cases hc : c.teacher_id = none
    · simp only [hc]
      simp only [List.length_cons]
      simp
      omega
    · have hb : (c.teacher_id == none) = false := by
        simp [hc]
      rw [hb]
      simp only [Bool.not_false, List.length_cons]
      simp
      omega

/-- Phase 3 partitions the placements: assigned plus unscheduled-by-teacher
counts add up to the number of placed classes. -/
theorem assign_teachers_partition_length (scheduled : List Scheduled) (ta : TAvail)
    (cp : Nat → Option ClassPrefs) (ts : List (Nat × TeacherSpec)) :
    (assign_teachers_to_classes scheduled ta cp ts).1.length +
      (assign_teachers_to_classes scheduled ta cp ts).2.length =
      scheduled.length := by
  unfold assign_teachers_to_classes
  rw [partition_fold_eq]
  simp only [List.nil_append, List.length_map]
  rw [filter_length_split]
  rw [p2_counts]
  rw [length_sortAscBy]
  simp

/-- C9: stats consistency.  For inputs with pairwise distinct class ids, the
statistics of the scheduling core satisfy scheduled_classes +
unscheduled_by_room + unscheduled_by_teacher = total_classes. -/
theorem c9_stats_consistency (classes : List ClassData) (rooms : List Room)
    (room_availability : RMatrix) (teacher_availability : TAvail)
    (cp : Nat → Option ClassPrefs) (ts : List (Nat × TeacherSpec))
    (hids : (classes.map (fun cd => cd.class_id)).Nodup) :
    ((schedule_classes_core classes rooms room_availability teacher_availability
        cp ts).2.2.2).scheduled_classes +
      ((schedule_classes_core classes rooms room_availability teacher_availability
        cp ts).2.2.2).unscheduled_by_room +
      ((schedule_classes_core classes rooms room_availability teacher_availability
        cp ts).2.2.2).unscheduled_by_teacher =
      ((schedule_classes_core classes rooms room_availability teacher_availability
        cp ts).2.2.2).total_classes := by
  have h1 := assign_classes_partition_length classes rooms room_availability cp
  have h2 := assign_teachers_partition_length
    (assign_classes_to_slots classes rooms room_availability cp).1
    teacher_availability cp ts
  simp only [schedule_classes_core]
  omega

/- ### The time-preference bonus window (C6) -/

/-- The condition under which score_slot's time loop adds a bonus for one
preference entry: an integer value t with t ≤ start_slot < t + duration. -/
def timeMatchesB (p : Pref) (start_slot duration_slots : Nat) : Bool :=
  match p.value with
  | PVal.pint t =>
    decide (t ≤ (start_slot : Int) ∧ (start_slot : Int) < t + (duration_slots : Int))
  | PVal.pstr _ => false

/-- C6 (amended): time-preference bonus window.  The time component of
score_slot equals 5 × w for the first preference whose integer value t
satisfies t ≤ start_slot < t + duration_slots (that is, start_slot lies in
[t, t + duration_slots)), and 0 when no preference matches; in particular a
bonus is added exactly when some preference value satisfies that reflected
window, not when a preference value lies in
[start_slot, start_slot + duration_slots). -/
theorem c6_time_bonus_window (l : List Pref) (start_slot duration_slots : Nat) :
    timePrefScore l start_slot duration_slots =
      (match l.find? (fun p => timeMatchesB p start_slot duration_slots) with
       | some p => p.weight * 5
       | none => 0) ∧
    ((l.find? (fun p => timeMatchesB p start_slot duration_slots)).isSome ↔
      ∃ p ∈ l, timeMatchesB p start_slot duration_slots = true) := by
  constructor
  · induction l with
    | nil => rfl
    | cons p ps ih =>
      rw [List.find?_cons]
      cases hv : p.value with
      | pint t =>
        by_cases hcond : t ≤ (start_slot : Int) ∧
            (start_slot : Int) < t + (duration_slots : Int)
        · have hm : timeMatchesB p start_slot duration_slots = true := by
            simp [timeMatchesB, hv, hcond]
          rw [hm]
          simp only [timePrefScore, hv]
          rw [if_pos hcond]
        · have hm : timeMatchesB p start_slot duration_slots = false := by
            simp only [timeMatchesB, hv]
            exact decide_eq_false hcond
          rw [hm]
          simp only [timePrefScore, hv]
          rw [if_neg hcond]
          exact ih
      | pstr s0 =>
        have hm : timeMatchesB p start_slot duration_slots = false := by
          simp [timeMatchesB, hv]
        rw [hm]
        simp only [timePrefScore, hv]
        exact ih
  · induction l with
    | nil => simp
    | cons p ps ih =>
      rw [List.find?_cons]
      cases hm : timeMatchesB p start_slot duration_slots with
      | true =>
        constructor
        · intro _
          exact ⟨p, List.mem_cons_self p ps, hm⟩
        · intro _
          rfl
      | false =>
        constructor
        · intro h
          obtain ⟨q, hq, hmq⟩ := ih.1 h
          exact ⟨q, List.mem_cons_of_mem p hq, hmq⟩
        · intro h
          obtain ⟨q, hq, hmq⟩ := h
          rcases List.mem_cons.1 hq with rfl | hq'
          · rw [hm] at hmq
            cases hmq
          · exact ih.2 ⟨q, hq', hmq⟩

/- ### Characterizing the seeded matrix (C2) -/

theorem bool_mask_mask (x a e r : Bool) :
    ((x && !(a && e)) && !(a && r)) = (x && !(a && (e || r))) := by
  cases x <;> cases a <;> cases e <;> cases r <;> rfl

/-- Marking every component id unavailable at one (day, slot). -/
theorem cidsFold_dget (cids : List Nat) (m : RMatrix) (d0 s0 : Nat) (k : RKey) :
    dget (cids.foldl (fun m'' cid => dset m'' (cid, d0, s0) false) m) k =
      (dget m k && !(decide (k.1 ∈ cids) && decide (k.2 = (d0, s0)))) := by
  induction cids generalizing m with
  | nil => simp
  | cons c cs ih =>
    simp only [List.foldl_cons]
    rw [ih (dset m (c, d0, s0) false), dget_dset]
    by_cases h2 : k.2 = (d0, s0)
    · by_cases h1c : k.1 = c
      · have hk : k = (c, d0, s0) := by
          obtain ⟨k1, k2⟩ := k
          simp only at h1c h2
          rw [h1c, h2]
        rw [if_pos hk]
        have ha : decide (k.1 ∈ c :: cs) = true := by
          simp [List.mem_cons, h1c]
        have he : decide (k.2 = (d0, s0)) = true := by
          simp [h2]
        rw [ha, he]
        simp
      · have hk : ¬ k = (c, d0, s0) := fun hh => h1c (by rw [hh])
        rw [if_neg hk]
        have ha : decide (k.1 ∈ c :: cs) = decide (k.1 ∈ cs) := by
          simp [List.mem_cons, h1c]
        rw [ha]
    · have hk : ¬ k = (c, d0, s0) := fun hh => h2 (by rw [hh])
      rw [if_neg hk]
      have he : decide (k.2 = (d0, s0)) = false := by
        simp [h2]
      rw [he]
      simp

/-- Extensional behaviour of the key walk of one combined room in the first
conflict loop: a key stays available unless it is a component id at a (day,
slot) where the combined room is available; the combined room's own values
are never touched because its id is not among the component ids. -/
theorem innerFold_dget (rooms : List Room) (C : Room)
    (hsafe : C.room_id ∉ componentIds rooms C.component_rooms) (m : RMatrix) :
    ∀ (ks : List RKey) (mc : RMatrix),
      (∀ d s, dget mc (C.room_id, d, s) = dget m (C.room_id, d, s)) →
      ∀ k, dget (ks.foldl (fun m' key =>
          if key.1 = C.room_id ∧ dget m' key = true then
            (componentIds rooms C.component_rooms).foldl
              (fun m'' cid => dset m'' (cid, key.2.1, key.2.2) false) m'
          else m') mc) k =
        (dget mc k && !(decide (k.1 ∈ componentIds rooms C.component_rooms) &&
          ks.any (fun key => decide (key = (C.room_id, k.2.1, k.2.2)) && dget m key))) := by
  intro ks
  induction ks with
  | nil =>
    intro mc hK k
    simp
  | cons key rest ih =>
    intro mc hK k
    simp only [List.foldl_cons, List.any_cons]
    by_cases hcond : key.1 = C.room_id ∧ dget mc key = true
    · rw [if_pos hcond]
      have hKeyEq : key = (C.room_id, key.2.1, key.2.2) := by
        obtain ⟨key1, key2, key3⟩ := key
        simp only at hcond ⊢
        rw [hcond.1]
      have hK1 : ∀ d s, dget ((componentIds rooms C.component_rooms).foldl
          (fun m'' cid => dset m'' (cid, key.2.1, key.2.2) false) mc)
          (C.room_id, d, s) = dget m (C.room_id, d, s) := by
        intro d s
        rw [cidsFold_dget]
        have : decide ((C.room_id, d, s).1 ∈
            componentIds rooms C.component_rooms) = false := by
          simp only []
          exact decide_eq_false hsafe
        rw [this]
        simp [hK d s]
      rw [ih _ hK1 k]
      rw [cidsFold_dget]
      have hdm : dget m key = true := by
        rw [hKeyEq, ← hK key.2.1 key.2.2, ← hKeyEq]
        exact hcond.2
      have he : decide (key = (C.room_id, k.2.1, k.2.2)) =
          decide (k.2 = (key.2.1, key.2.2)) := by
        by_cases hk2 : k.2 = (key.2.1, key.2.2)
        · have h21 : k.2.1 = key.2.1 := by rw [hk2]
          have h22 : k.2.2 = key.2.2 := by rw [hk2]
          have hkey : key = (C.room_id, k.2.1, k.2.2) := by
            rw [h21, h22]
            exact hKeyEq
          rw [decide_eq_true hkey, decide_eq_true hk2]
        · have h1 : ¬ key = (C.room_id, k.2.1, k.2.2) := by
            intro hh
            apply hk2
            rw [hh]
          simp [h1, hk2]
      rw [hdm, he]
      rw [Bool.and_true]
      exact bool_mask_mask (dget mc k) _ _ _
    · rw [if_neg hcond]
      rw [ih _ hK k]
      have hterm : (decide (key = (C.room_id, k.2.1, k.2.2)) && dget m key) = false := by
        by_cases hkey : key = (C.room_id, k.2.1, k.2.2)
        · have hfalse : dget mc key = false := by
            cases hmc : dget mc key
            · rfl
            · exact absurd ⟨by rw [hkey], hmc⟩ hcond
          have : dget m key = false := by
            rw [hkey] at hfalse ⊢
            rw [← hK k.2.1 k.2.2]
            exact hfalse
          rw [this]
          simp
        · simp [hkey]
      rw [hterm]
      simp

/-- Extensional behaviour of one iteration of the first conflict loop. -/
theorem processCombined_dget (rooms : List Room) (C : Room)
    (hcomb : C.is_combined = true) (hne : C.component_rooms ≠ [])
    (hsafe : C.room_id ∉ componentIds rooms C.component_rooms)
    (m : RMatrix) (k : RKey) :
    dget (processCombined rooms m C) k =
      (dget m k && !(decide (k.1 ∈ componentIds rooms C.component_rooms) &&
        dget m (C.room_id, k.2.1, k.2.2))) := by
  unfold processCombined
  rw [if_pos ⟨hcomb, hne⟩]
  rw [innerFold_dget rooms C hsafe m (m.map Prod.fst) m (fun d s => rfl) k]
  have hany : (m.map Prod.fst).any
      (fun key => decide (key = (C.room_id, k.2.1, k.2.2)) && dget m key) =
      dget m (C.room_id, k.2.1, k.2.2) := by
    cases hd : dget m (C.room_id, k.2.1, k.2.2)
    · rw [List.any_eq_false]
      intro key hkey
      by_cases hk : key = (C.room_id, k.2.1, k.2.2)
      · rw [hk, hd]
        simp
      · simp [hk]
    · rw [List.any_eq_true]
      exact ⟨(C.room_id, k.2.1, k.2.2), mem_keys_of_dget_true hd, by simp [hd]⟩
  rw [hany]

theorem bool_mask_or (x t r : Bool) : ((x && !t) && !r) = (x && !(t || r)) := by
  cases x <;> cases t <;> cases r <;> rfl

/-- Membership in the resolved component ids, via the first room found for
some listed component name. -/
theorem mem_componentIds_general (rooms : List Room) :
    ∀ (names : List String) (acc : List Nat) (cid : Nat),
      (cid ∈ names.foldl (fun acc n =>
        match rooms.find? (fun r => r.room_name == n) with
        | some r => acc ++ [r.room_id]
        | none => acc) acc) ↔
      (cid ∈ acc ∨ ∃ n ∈ names, ∃ Q : Room,
        rooms.find? (fun r => r.room_name == n) = some Q ∧ Q.room_id = cid) := by
  intro names
  induction names with
  | nil =>
    intro acc cid
    simp
  | cons n ns ih =>
    intro acc cid
    simp only [List.foldl_cons]
    cases hf : rooms.find? (fun r => r.room_name == n) with
    | none =>
      simp only [hf]
      rw [ih acc cid]
      constructor
      · rintro (h | ⟨n', hn', Q, hfind, hQ⟩)
        · exact Or.inl h
        · exact Or.inr ⟨n', List.mem_cons_of_mem n hn', Q, hfind, hQ⟩
      · rintro (h | ⟨n', hn', Q, hfind, hQ⟩)
        · exact Or.inl h
        · rcases List.mem_cons.1 hn' with rfl | hn''
          · rw [hf] at hfind
            cases hfind
          · exact Or.inr ⟨n', hn'', Q, hfind, hQ⟩
    | some r =>
      simp only [hf]
      rw [ih (acc ++ [r.room_id]) cid]
      constructor
      · rintro (h | ⟨n', hn', Q, hfind, hQ⟩)
        · rcases List.mem_append.1 h with h | h
          · exact Or.inl h
          · rcases List.mem_singleton.1 h with rfl
            exact Or.inr ⟨n, List.mem_cons_self n ns, r, hf, rfl⟩
        · exact Or.inr ⟨n', List.mem_cons_of_mem n hn', Q, hfind, hQ⟩
      · rintro (h | ⟨n', hn', Q, hfind, hQ⟩)
        · exact Or.inl (List.mem_append.2 (Or.inl h))
        · rcases List.mem_cons.1 hn' with rfl | hn''
          · rw [hf] at hfind
            cases hfind with
            | refl => exact Or.inl (List.mem_append.2 (Or.inr (by simp [hQ])))
          · exact Or.inr ⟨n', hn'', Q, hfind, hQ⟩

/-- With unique room ids and names, a room's id is among the resolved
component ids exactly when its name is among the component names. -/
theorem componentIds_mem_iff (rooms : List Room)
    (hid : (rooms.map (fun r => r.room_id)).Nodup)
    (hnm : (rooms.map (fun r => r.room_name)).Nodup)
    (R : Room) (hR : R ∈ rooms) (names : List String) :
    R.room_id ∈ componentIds rooms names ↔ R.room_name ∈ names := by
  unfold componentIds
  rw [mem_componentIds_general rooms names [] R.room_id]
  simp only [List.not_mem_nil, false_or]
  constructor
  · rintro ⟨n, hn, Q, hfind, hQid⟩
    have hQmem := List.mem_of_find?_eq_some hfind
    have hQR : Q = R := List.inj_on_of_nodup_map hid hQmem hR hQid
    have hname : R.room_name = n := by
      rw [← hQR]
      simpa using List.find?_some hfind
    rw [hname]
    exact hn
  · intro hn
    refine ⟨R.room_name, hn, ?_⟩
    have hex : ∃ Q, rooms.find? (fun r => r.room_name == R.room_name) = some Q := by
      cases hf : rooms.find? (fun r => r.room_name == R.room_name) with
      | some Q => exact ⟨Q, rfl⟩
      | none =>
        rw [List.find?_eq_none] at hf
        have hfalse := hf R hR
        simp at hfalse
    obtain ⟨Q, hf⟩ := hex
    have hQmem := List.mem_of_find?_eq_some hf
    have hQname : Q.room_name = R.room_name := by
      simpa using List.find?_some hf
    have hQR : Q = R := List.inj_on_of_nodup_map hnm hQmem hR hQname
    exact ⟨Q, hf, by rw [hQR]⟩

/-- Under one-level accordion nesting and unique ids, no combined room's id
is among any combined room's resolved component ids. -/
theorem componentIds_not_combined (rooms : List Room)
    (hcc : ∀ C ∈ rooms, C.is_combined = true →
      ∀ P ∈ rooms, P.room_name ∈ C.component_rooms → P.is_combined = false)
    (hid : (rooms.map (fun r => r.room_id)).Nodup)
    (C : Room) (hC : C ∈ rooms) (hcomb : C.is_combined = true)
    (Co : Room) (hCo : Co ∈ rooms) (hcombo : Co.is_combined = true) :
    Co.room_id ∉ componentIds rooms C.component_rooms := by
  intro hmem
  unfold componentIds at hmem
  rw [mem_componentIds_general rooms C.component_rooms [] Co.room_id] at hmem
  simp only [List.not_mem_nil, false_or] at hmem
  obtain ⟨n, hn, Q, hfind, hQid⟩ := hmem
  have hQmem := List.mem_of_find?_eq_some hfind
  have hQname : Q.room_name = n := by
    simpa using List.find?_some hfind
  have hQnc : Q.is_combined = false := hcc C hC hcomb Q hQmem (hQname ▸ hn)
  have hQCo : Q = Co := List.inj_on_of_nodup_map hid hQmem hCo hQid
  rw [hQCo, hcombo] at hQnc
  cases hQnc

/-- Extensional characterization of the whole first conflict loop, relative
to the values at loop entry. -/
theorem loop1_general (rooms : List Room) (m0 : RMatrix)
    (hcc : ∀ C ∈ rooms, C.is_combined = true →
      ∀ P ∈ rooms, P.room_name ∈ C.component_rooms → P.is_combined = false)
    (hid : (rooms.map (fun r => r.room_id)).Nodup) :
    ∀ (l : List Room), (∀ C ∈ l, C ∈ rooms) →
      ∀ (mc : RMatrix),
      (∀ Co ∈ rooms, Co.is_combined = true →
        ∀ d s, dget mc (Co.room_id, d, s) = dget m0 (Co.room_id, d, s)) →
      ∀ k, dget (l.foldl (processCombined rooms) mc) k =
        (dget mc k && !(l.any (fun C => C.is_combined &&
          !C.component_rooms.isEmpty &&
          decide (k.1 ∈ componentIds rooms C.component_rooms) &&
          dget m0 (C.room_id, k.2.1, k.2.2)))) := by
  intro l
  induction l with
  | nil =>
    intro _ mc _ k
    simp
  | cons C cs ih =>
    intro hsub mc hKinv k
    simp only [List.foldl_cons, List.any_cons]
    have hCmem : C ∈ rooms := hsub C (List.mem_cons_self C cs)
    by_cases hcomb : C.is_combined = true ∧ C.component_rooms ≠ []
    · have hsafe : C.room_id ∉ componentIds rooms C.component_rooms :=
        componentIds_not_combined rooms hcc hid C hCmem hcomb.1 C hCmem hcomb.1
      have hmc' := processCombined_dget rooms C hcomb.1 hcomb.2 hsafe mc
      have hKinv' : ∀ Co ∈ rooms, Co.is_combined = true →
          ∀ d s, dget (processCombined rooms mc C) (Co.room_id, d, s) =
            dget m0 (Co.room_id, d, s) := by
        intro Co hCo hcombo d s
        rw [hmc' (Co.room_id, d, s)]
        have hnotin : decide (Co.room_id ∈
            componentIds rooms C.component_rooms) = false :=
          decide_eq_false
            (componentIds_not_combined rooms hcc hid C hCmem hcomb.1 Co hCo hcombo)
        simp only [hnotin, Bool.false_and, Bool.not_false, Bool.and_true]
        exact hKinv Co hCo hcombo d s
      rw [ih (fun x hx => hsub x (List.mem_cons_of_mem C hx)) _ hKinv' k]
      rw [hmc' k]
      have hC2 : C.component_rooms.isEmpty = false := by
        cases hl : C.component_rooms with
        | nil => exact absurd hl hcomb.2
        | cons a b => rfl
      have hw : dget mc (C.room_id, k.2.1, k.2.2) =
          dget m0 (C.room_id, k.2.1, k.2.2) := hKinv C hCmem hcomb.1 k.2.1 k.2.2
      rw [hw]
      simp only [hcomb.1, hC2, Bool.not_false, Bool.true_and]
      exact bool_mask_or (dget mc k) _ _
    · have hmc' : processCombined rooms mc C = mc := by
        unfold processCombined
        rw [if_neg hcomb]
      rw [hmc']
      rw [ih (fun x hx => hsub x (List.mem_cons_of_mem C hx)) mc hKinv k]
      have hCterm : (C.is_combined && !C.component_rooms.isEmpty &&
          decide (k.1 ∈ componentIds rooms C.component_rooms) &&
          dget m0 (C.room_id, k.2.1, k.2.2)) = false := by
        rcases not_and_or.1 hcomb with h | h
        · have hcb : C.is_combined = false := by
            cases hx : C.is_combined with
            | false => rfl
            | true => exact absurd hx h
          simp [hcb]
        · have hcR : C.component_rooms = [] := not_not.1 h
          simp [hcR]
      simp only [hCterm, Bool.false_or]

/-- Membership in the combined-room ids listing a component name. -/
theorem mem_combinedIdsFor (rooms : List Room) (name : String) (cid : Nat) :
    cid ∈ combinedIdsFor rooms name ↔
      ∃ C ∈ rooms, C.is_combined = true ∧ C.component_rooms ≠ [] ∧
        name ∈ C.component_rooms ∧ C.room_id = cid := by
  unfold combinedIdsFor
  simp only [List.mem_map, List.mem_filter, Bool.and_eq_true]
  constructor
  · rintro ⟨C, ⟨hCmem, ⟨⟨h1, h2⟩, h3⟩⟩, hCid⟩
    refine ⟨C, hCmem, h1, ?_, ?_, hCid⟩
    · intro hnil
      rw [hnil] at h2
      simp at h2
    · simpa using h3
  · rintro ⟨C, hCmem, h1, h2, h3, h4⟩
    refine ⟨C, ⟨hCmem, ⟨⟨h1, ?_⟩, ?_⟩⟩, h4⟩
    · cases hl : C.component_rooms with
      | nil => exact absurd hl h2
      | cons a b => simp [hl]
    · simpa using h3

/-- The second conflict loop changes no lookup: wherever a non-combined room
is still available after the first loop, every combined room containing it
was already unavailable at loop entry, so all its writes are no-ops. -/
theorem loop2_id (rooms : List Room) (m0 m1 : RMatrix)
    (hcc : ∀ C ∈ rooms, C.is_combined = true →
      ∀ P ∈ rooms, P.room_name ∈ C.component_rooms → P.is_combined = false)
    (hid : (rooms.map (fun r => r.room_id)).Nodup)
    (hnm : (rooms.map (fun r => r.room_name)).Nodup)
    (hm1 : ∀ k, dget m1 k = (dget m0 k && !(rooms.any (fun C => C.is_combined &&
      !C.component_rooms.isEmpty &&
      decide (k.1 ∈ componentIds rooms C.component_rooms) &&
      dget m0 (C.room_id, k.2.1, k.2.2))))) :
    ∀ k, dget (rooms.foldl (processReverse rooms) m1) k = dget m1 k := by
  refine fun k => (foldl_preserve_mem
    (P := fun mc : RMatrix => ∀ k, dget mc k = dget m1 k) ?_ m1 (fun _ => rfl)) k
  intro mc room hroommem hP
  unfold processReverse
  by_cases hcb : room.is_combined = true
  · rw [if_pos hcb]
    exact hP
  · rw [if_neg hcb]
    refine foldl_preserve (P := fun a : RMatrix => ∀ k, dget a k = dget m1 k) ?_ _ _ hP
    intro a key ha
    dsimp only
    by_cases hcond : key.1 = room.room_id ∧ dget a key = true
    · rw [if_pos hcond]
      intro k
      rw [cidsFold_dget]
      by_cases hmask : k.1 ∈ combinedIdsFor rooms room.room_name ∧
          k.2 = (key.2.1, key.2.2)
      · obtain ⟨hk1, hk2⟩ := hmask
        rw [mem_combinedIdsFor] at hk1
        obtain ⟨C, hCmem, hCcomb, hCne, hCname, hCid⟩ := hk1
        have hkey_true : dget m1 key = true := by
          rw [← ha key]
          exact hcond.2
        have h1 := hm1 key
        rw [hkey_true] at h1
        have h1' : (dget m0 key && !(rooms.any (fun C => C.is_combined &&
            !C.component_rooms.isEmpty &&
            decide (key.1 ∈ componentIds rooms C.component_rooms) &&
            dget m0 (C.room_id, key.2.1, key.2.2)))) = true := h1.symm
        rw [Bool.and_eq_true] at h1'
        obtain ⟨hm0k, hnotany⟩ := h1'
        have hany0 : rooms.any (fun C => C.is_combined &&
            !C.component_rooms.isEmpty &&
            decide (key.1 ∈ componentIds rooms C.component_rooms) &&
            dget m0 (C.room_id, key.2.1, key.2.2)) = false := by
          cases hAny : rooms.any (fun C => C.is_combined &&
              !C.component_rooms.isEmpty &&
              decide (key.1 ∈ componentIds rooms C.component_rooms) &&
              dget m0 (C.room_id, key.2.1, key.2.2)) with
          | false => rfl
          | true =>
            rw [hAny] at hnotany
            cases hnotany
        have hCterm := (List.any_eq_false.1 hany0) C hCmem
        have hin : decide (key.1 ∈ componentIds rooms C.component_rooms) = true := by
          rw [hcond.1]
          exact decide_eq_true
            ((componentIds_mem_iff rooms hid hnm room hroommem C.component_rooms).2
              hCname)
        have hC2 : C.component_rooms.isEmpty = false := by
          cases hl : C.component_rooms with
          | nil => exact absurd hl hCne
          | cons x y => rfl
        have hm0C : dget m0 (C.room_id, key.2.1, key.2.2) = false := by
          cases hx : dget m0 (C.room_id, key.2.1, key.2.2) with
          | false => rfl
          | true =>
            exfalso
            apply hCterm
            simp [hCcomb, hC2, hin, hx]
        have hm1C : dget m1 (C.room_id, key.2.1, key.2.2) = false := by
          rw [hm1 (C.room_id, key.2.1, key.2.2)]
          simp only [hm0C, Bool.false_and]
        have hkEq : k = (C.room_id, key.2.1, key.2.2) := by
          obtain ⟨x1, x2⟩ := k
          simp only at hCid hk2
          rw [← hCid, hk2]
        rw [ha k, hkEq, hm1C]
        simp
      · have hmf : (decide (k.1 ∈ combinedIdsFor rooms room.room_name) &&
            decide (k.2 = (key.2.1, key.2.2))) = false := by
          rcases not_and_or.1 hmask with h | h
          · simp [h]
          · simp [h]
        rw [hmf]
        simp [ha k]
    · rw [if_neg hcond]
      exact ha

theorem any_congr_mem {α : Type} (l : List α) (f g : α → Bool)
    (h : ∀ x ∈ l, f x = g x) : l.any f = l.any g := by
  induction l with
  | nil => rfl
  | cons x xs ih =>
    simp only [List.any_cons]
    rw [h x (List.mem_cons_self x xs),
      ih (fun y hy => h y (List.mem_cons_of_mem x hy))]

/-- C2 (amended): the seeded matrix.  Under well-formed room configurations
(unique room ids, unique room names, one-level accordion nesting), the matrix
with which the placement loop starts is available at (room_id, day, slot) iff
the input room_availability is true there AND no combined room whose
components list this room's name is input-open at the same (day, slot).
Seeding therefore does introduce additional unavailability: a component room
open at a slot where its combined room is also open is closed before any
class is placed, while combined rooms keep exactly their input availability. -/
theorem c2_seeded_matrix_characterization (rooms : List Room)
    (room_availability : RMatrix)
    (hid : (rooms.map (fun r => r.room_id)).Nodup)
    (hnm : (rooms.map (fun r => r.room_name)).Nodup)
    (hcc : ∀ C ∈ rooms, C.is_combined = true →
      ∀ P ∈ rooms, P.room_name ∈ C.component_rooms → P.is_combined = false) :
    ∀ R ∈ rooms, ∀ d s : Nat,
      dget (create_room_availability_matrix rooms room_availability)
          (R.room_id, d, s) =
        (dget room_availability (R.room_id, d, s) &&
          !(rooms.any (fun C => C.is_combined &&
            C.component_rooms.contains R.room_name &&
            dget room_availability (C.room_id, d, s)))) := by
  intro R hR d s
  have hloop1 := loop1_general rooms room_availability hcc hid rooms
    (fun _ h => h) room_availability
    (fun Co hCo hcombo dd ss => rfl)
  have hloop2 := loop2_id rooms room_availability
    (rooms.foldl (processCombined rooms) room_availability) hcc hid hnm hloop1
  show dget (rooms.foldl (processReverse rooms)
    (rooms.foldl (processCombined rooms) room_availability)) (R.room_id, d, s) = _
  rw [hloop2 (R.room_id, d, s), hloop1 (R.room_id, d, s)]
  have hany : rooms.any (fun C => C.is_combined && !C.component_rooms.isEmpty &&
      decide ((R.room_id, d, s).1 ∈ componentIds rooms C.component_rooms) &&
      dget room_availability (C.room_id, (R.room_id, d, s).2.1,
        (R.room_id, d, s).2.2)) =
      rooms.any (fun C => C.is_combined &&
        C.component_rooms.contains R.room_name &&
        dget room_availability (C.room_id, d, s)) := by
    refine any_congr_mem rooms _ _ ?_
    intro C hC
    by_cases hct : R.room_name ∈ C.component_rooms
    · have h1 : decide ((R.room_id, d, s).1 ∈
          componentIds rooms C.component_rooms) = true :=
        decide_eq_true
          ((componentIds_mem_iff rooms hid hnm R hR C.component_rooms).2 hct)
      have h2 : C.component_rooms.contains R.room_name = true := by
        simpa using hct
      have h3 : C.component_rooms.isEmpty = false := by
        cases hl : C.component_rooms with
        | nil =>
          rw [hl] at hct
          cases hct
        | cons x y => rfl
      simp [h1, h2, h3, hct]
    · have h1 : decide ((R.room_id, d, s).1 ∈
          componentIds rooms C.component_rooms) = false :=
        decide_eq_false (fun hmem => hct
          ((componentIds_mem_iff rooms hid hnm R hR C.component_rooms).1 hmem))
      have h2 : C.component_rooms.contains R.room_name = false := by
        simpa using hct
      simp [h1, h2, hct]
  rw [hany]

/- ### Concrete inputs for counterexamples and witnesses -/

/-- Component room R1. -/
def cexR1 : Room := ⟨1, "R1", false, []⟩

/-- Component room R2. -/
def cexR2 : Room := ⟨2, "R2", false, []⟩

/-- Combined room over R1 and R2. -/
def cexR12 : Room := ⟨3, "R1+2", true, ["R1", "R2"]⟩

/-- A three-room accordion configuration. -/
def cexRooms : List Room := [cexR1, cexR2, cexR12]

/-- A one-slot class with id 1 and no preferences. -/
def cexClassA : ClassData := ⟨1, "A", "ballet", 1, 5, 7, 1, 1⟩

/-- A one-slot class with id 2 and no preferences. -/
def cexClassB : ClassData := ⟨2, "B", "jazz", 1, 5, 7, 1, 1⟩

/-- Empty preference table. -/
def cexNoPrefs : Nat → Option ClassPrefs := fun _ => none

/-- Both component rooms open at day 0, slot 0; the combined room closed. -/
def c1Avail : RMatrix := [((1, 0, 0), true), ((2, 0, 0), true)]

/-- The schedule produced on the sibling-component input. -/
def c1Sched : List Scheduled :=
  (assign_classes_to_slots [cexClassA, cexClassB] cexRooms c1Avail cexNoPrefs).1

/-- C1 counterexample: with the accordion group R1+2 over R1 and R2, the
returned schedule occupies both sibling components (rooms 1 and 2) at day 0,
slot 0, so it is false that whenever one room of the group is occupied no
other room of the group is occupied at that (day, slot). -/
theorem c1_counterexample :
    cexR12.is_combined = true ∧ cexR1.room_name ∈ cexR12.component_rooms ∧
    cexR2.room_name ∈ cexR12.component_rooms ∧ cexR1.room_id = 1 ∧
    cexR2.room_id = 2 ∧
    ¬ (∀ p ∈ c1Sched, ∀ q ∈ c1Sched, ¬ (occupies p 1 0 0 ∧ occupies q 2 0 0)) := by
  decide

/-- C1 witness: the combined-versus-component exclusion proved for the same
concrete configuration, between the combined room (id 3) and component R1. -/
theorem c1_witness :
    (cexR12 ∈ cexRooms ∧ cexR1 ∈ cexRooms ∧ cexR12.is_combined = true ∧
      cexR12.component_rooms ≠ [] ∧ cexR1.room_name ∈ cexR12.component_rooms ∧
      cexR12.room_id ≠ cexR1.room_id) ∧
    (∀ p ∈ c1Sched, ∀ q ∈ c1Sched, ∀ d s,
      ¬ (occupies p cexR12.room_id d s ∧ occupies q cexR1.room_id d s)) :=
  ⟨by decide,
    c1_accordion_combined_component_exclusion [cexClassA, cexClassB] cexRooms
      c1Avail cexNoPrefs cexR12 cexR1 (by decide) (by decide) (by decide)
      (by decide) (by decide) (by decide)⟩

/-- Combined room and component R1 both open at day 0, slot 0. -/
def c2Avail : RMatrix := [((3, 0, 0), true), ((1, 0, 0), true)]

/-- C2 counterexample: the input declares room 1 available at day 0, slot 0,
but the matrix with which the placement loop starts is unavailable there
(the combined room 3 is also input-open, and seeding closes the component),
refuting availability iff input-true before any class is placed. -/
theorem c2_counterexample :
    dget c2Avail (1, 0, 0) = true ∧
    dget (create_room_availability_matrix cexRooms c2Avail) (1, 0, 0) = false := by
  decide

/-- C2 witness: the amended characterization applied to the same concrete
configuration at room R1, day 0, slot 0. -/
theorem c2_witness :
    ((cexRooms.map (fun r => r.room_id)).Nodup ∧
      (cexRooms.map (fun r => r.room_name)).Nodup ∧ cexR1 ∈ cexRooms) ∧
    dget (create_room_availability_matrix cexRooms c2Avail) (cexR1.room_id, 0, 0) =
      (dget c2Avail (cexR1.room_id, 0, 0) &&
        !(cexRooms.any (fun C => C.is_combined &&
          C.component_rooms.contains cexR1.room_name &&
          dget c2Avail (C.room_id, 0, 0)))) :=
  ⟨by decide,
    c2_seeded_matrix_characterization cexRooms c2Avail (by decide) (by decide)
      (by decide) cexR1 (by decide) 0 0⟩

/-- C3 witness: the pairwise no-double-booking fact at a concrete input. -/
theorem c3_witness :
    List.Pairwise (fun p q => ∀ r d s, ¬ (occupies p r d s ∧ occupies q r d s))
      c1Sched :=
  c3_no_room_time_double_booking [cexClassA, cexClassB] cexRooms c1Avail cexNoPrefs

/-- Room 1 open at day 0 in two separated slots 0 and 50. -/
def c4Avail : RMatrix := [((1, 0, 0), true), ((1, 0, 50), true)]

/-- The schedule produced on the two-tied-slots input. -/
def c4Sched : List Scheduled :=
  (assign_classes_to_slots [cexClassA] [cexR1] c4Avail cexNoPrefs).1

/-- C4 counterexample: the class has exactly the two compatible slots
(1, 0, 0) and (1, 0, 50) with equal scores, and the scheduler places it at
start_slot 50 — the lexicographically larger candidate — not at the first
candidate (1, 0, 0) of the enumeration order. -/
theorem c4_counterexample :
    find_compatible_slots cexClassA (create_room_availability_matrix [cexR1] c4Avail)
      [cexR1] cexNoPrefs = [(1, 0, 0), (1, 0, 50)] ∧
    score_slot (1, 0, 0) cexClassA cexNoPrefs [] [cexR1] =
      score_slot (1, 0, 50) cexClassA cexNoPrefs [] [cexR1] ∧
    c4Sched.map (fun c => (c.room_id, c.day_idx, c.start_slot)) = [(1, 0, 50)] := by
  decide

/-- C4 witness: the amended selection property at the same concrete input. -/
theorem c4_witness :
    (find_compatible_slots cexClassA
      (P1State.mk (create_room_availability_matrix [cexR1] c4Avail) [] []).m
      [cexR1] cexNoPrefs ≠ []) ∧
    ((placeClass [cexR1] cexNoPrefs
        (P1State.mk (create_room_availability_matrix [cexR1] c4Avail) [] [])
        cexClassA).scheduled =
      [] ++ [mkScheduled cexClassA (chosenSlot [cexR1] cexNoPrefs
        (create_room_availability_matrix [cexR1] c4Avail) [] cexClassA)] ∧
      chosenSlot [cexR1] cexNoPrefs (create_room_availability_matrix [cexR1] c4Avail)
        [] cexClassA ∈ find_compatible_slots cexClassA
        (P1State.mk (create_room_availability_matrix [cexR1] c4Avail) [] []).m
        [cexR1] cexNoPrefs ∧
      (∀ slot ∈ find_compatible_slots cexClassA
          (P1State.mk (create_room_availability_matrix [cexR1] c4Avail) [] []).m
          [cexR1] cexNoPrefs,
        scoredSlotLe (score_slot slot cexClassA cexNoPrefs [] [cexR1], slot)
          (score_slot (chosenSlot [cexR1] cexNoPrefs
            (create_room_availability_matrix [cexR1] c4Avail) [] cexClassA)
            cexClassA cexNoPrefs [] [cexR1],
            chosenSlot [cexR1] cexNoPrefs
              (create_room_availability_matrix [cexR1] c4Avail) [] cexClassA) =
          true) ∧
      (∀ slot ∈ find_compatible_slots cexClassA
          (P1State.mk (create_room_availability_matrix [cexR1] c4Avail) [] []).m
          [cexR1] cexNoPrefs,
        score_slot slot cexClassA cexNoPrefs [] [cexR1] =
          score_slot (chosenSlot [cexR1] cexNoPrefs
            (create_room_availability_matrix [cexR1] c4Avail) [] cexClassA)
            cexClassA cexNoPrefs [] [cexR1] →
        rkLe slot (chosenSlot [cexR1] cexNoPrefs
          (create_room_availability_matrix [cexR1] c4Avail) [] cexClassA) = true)) :=
  ⟨by decide,
    c4_tie_break_selects_lex_largest [cexR1] cexNoPrefs
      (P1State.mk (create_room_availability_matrix [cexR1] c4Avail) [] [])
      cexClassA (by decide)⟩

/-- A placement at room 1, day 0, slots 36..37, teacher not yet assigned. -/
def c5Class : Scheduled := mkScheduled cexClassA (1, 0, 36)

/-- Teacher 1 available on day 0 over slots 30..59; nobody else. -/
def c5TA : TAvail := fun k => decide (k.1 = 1 ∧ k.2.1 = 0 ∧ 30 ≤ k.2.2 ∧ k.2.2 < 60)

/-- A specialization record with no kind keys. -/
def cexSpecNone : TeacherSpec := ⟨none, none, none⟩

/-- Teacher 1 with an (empty) specialization record. -/
def c7TS : List (Nat × TeacherSpec) := [(1, cexSpecNone)]

/-- C5 counterexample: teacher 1's availability covers the whole class, yet
with an empty teacher_specializations table the class is returned unassigned
with no teacher considered — the candidate set is not the set of all
available teachers. -/
theorem c5_counterexample :
    teacherFree c5TA 1 c5Class.day_idx c5Class.start_slot c5Class.end_slot = true ∧
    (assign_teachers_to_classes [c5Class] c5TA cexNoPrefs []).1 = [] ∧
    (assign_teachers_to_classes [c5Class] c5TA cexNoPrefs []).2.map
      (fun u => u.data.teacher_id) = [none] := by
  decide

/-- C5 witness: the amended candidate-set characterization instantiated at
teacher 1 for the concrete class, availability and specialization table. -/
theorem c5_witness :
    1 ∈ (availableTeachers c7TS c5TA c5Class []).map Prod.snd ↔
      1 ∈ c7TS.map Prod.fst ∧
        ∀ s, c5Class.start_slot ≤ s → s < c5Class.end_slot →
          c5TA (1, c5Class.day_idx, s) = true :=
  c5_candidate_teacher_set c7TS c5TA c5Class [] 1

/-- A four-slot class with a single time preference of value 5, weight 1. -/
def c6Class : ClassData := ⟨1, "A", "ballet", 1, 5, 7, 1, 4⟩

/-- The preference table holding only that time preference for class 1. -/
def c6Prefs : Nat → Option ClassPrefs := fun cid =>
  if cid = 1 then some ⟨none, none, some [⟨PVal.pint 5, 1⟩], none⟩ else none

/-- C6 counterexample: for the candidate start_slot 7 with duration 4, the
single time-preference value 5 lies outside the claim's window [7, 11), yet
score_slot awards the 5 × w bonus (score 5, versus 0 with no preferences):
the code tests t ≤ start_slot < t + duration, not the claimed window. -/
theorem c6_counterexample :
    score_slot (1, 0, 7) c6Class c6Prefs [] [cexR1] = 5 ∧
    score_slot (1, 0, 7) c6Class cexNoPrefs [] [cexR1] = 0 ∧
    ¬ ((7 : Int) ≤ 5 ∧ (5 : Int) < 7 + 4) := by
  decide

/-- C6 witness: the amended time-bonus characterization instantiated on the
concrete preference list at start_slot 7, duration 4. -/
theorem c6_witness :
    timePrefScore [⟨PVal.pint 5, 1⟩] 7 4 =
      (match ([⟨PVal.pint 5, 1⟩] : List Pref).find?
          (fun p => timeMatchesB p 7 4) with
       | some p => p.weight * 5
       | none => 0) ∧
    ((([⟨PVal.pint 5, 1⟩] : List Pref).find?
        (fun p => timeMatchesB p 7 4)).isSome ↔
      ∃ p ∈ ([⟨PVal.pint 5, 1⟩] : List Pref), timeMatchesB p 7 4 = true) :=
  c6_time_bonus_window [⟨PVal.pint 5, 1⟩] 7 4

/-- C7 witness: teacher single-booking on a concrete run in which teacher 1
is actually assigned. -/
theorem c7_witness :
    (∀ c ∈ [c5Class], c.teacher_id = none) ∧
    List.Pairwise (fun c c' => ∀ t d s, ¬ (tOccupies c t d s ∧ tOccupies c' t d s))
      (assign_teachers_to_classes [c5Class] c5TA cexNoPrefs c7TS).1 :=
  ⟨by decide, c7_teacher_single_booking [c5Class] c5TA cexNoPrefs c7TS (by decide)⟩

/-- C8 counterexample: concrete runs produce the reason strings
"No compatible room-time slot found" and "No available teacher found", which
differ from the claim's strings "no compatible room-time slot" and
"no available teacher". -/
theorem c8_counterexample :
    (assign_classes_to_slots [cexClassA] [cexR1] [] cexNoPrefs).2.map
      (fun u => u.reason) = ["No compatible room-time slot found"] ∧
    "No compatible room-time slot found" ≠ "no compatible room-time slot" ∧
    (assign_teachers_to_classes [c5Class] c5TA cexNoPrefs []).2.map
      (fun u => u.reason) = ["No available teacher found"] ∧
    "No available teacher found" ≠ "no available teacher" := by
  decide

/-- C8 witness: the amended reason-string theorem at concrete inputs. -/
theorem c8_witness :
    (∀ u ∈ (assign_classes_to_slots [cexClassA] [cexR1] [] cexNoPrefs).2,
      u.reason = "No compatible room-time slot found") ∧
    (∀ u ∈ (assign_teachers_to_classes [c5Class] c5TA cexNoPrefs []).2,
      u.reason = "No available teacher found") :=
  c8_unscheduled_reason_strings [cexClassA] [cexR1] [] cexNoPrefs [c5Class] c5TA
    cexNoPrefs []

/-- C9 witness: stats consistency on a concrete two-class run with distinct
class ids. -/
theorem c9_witness :
    (([cexClassA, cexClassB].map (fun cd => cd.class_id)).Nodup) ∧
    ((schedule_classes_core [cexClassA, cexClassB] cexRooms c1Avail c5TA
        cexNoPrefs c7TS).2.2.2).scheduled_classes +
      ((schedule_classes_core [cexClassA, cexClassB] cexRooms c1Avail c5TA
        cexNoPrefs c7TS).2.2.2).unscheduled_by_room +
      ((schedule_classes_core [cexClassA, cexClassB] cexRooms c1Avail c5TA
        cexNoPrefs c7TS).2.2.2).unscheduled_by_teacher =
      ((schedule_classes_core [cexClassA, cexClassB] cexRooms c1Avail c5TA
        cexNoPrefs c7TS).2.2.2).total_classes :=
  ⟨by decide, c9_stats_consistency [cexClassA, cexClassB] cexRooms c1Avail c5TA
    cexNoPrefs c7TS (by decide)⟩

/-- C10 witness: the frame property of phase 3 at a concrete input. -/
theorem c10_witness :
    (∀ c ∈ (assign_teachers_to_classes [c5Class] c5TA cexNoPrefs c7TS).1,
      ∃ c₀ ∈ [c5Class], c = { c₀ with teacher_id := c.teacher_id }) ∧
    (∀ u ∈ (assign_teachers_to_classes [c5Class] c5TA cexNoPrefs c7TS).2,
      ∃ c₀ ∈ [c5Class], u.data = { c₀ with teacher_id := u.data.teacher_id } ∧
        u.reason = "No available teacher found") :=
  c10_phase3_frames_placements [c5Class] c5TA cexNoPrefs c7TS
